import Mathlib

/-!
Verification development for the microtex_rs wrapper core (src/lib.rs).

Shallow embedding conventions:
* All scanned documents are ASCII, so Rust byte indices coincide with the
  `List Char` indices used here.
* Rust `f32` values are modelled by `ℚ`.  Every numeric literal appearing in
  the scanned documents of this development has a finite decimal expansion, so
  parsing, comparison, `ceil` and the final decimal formatting agree with the
  float code except for sub-ulp rounding, which none of the proved statements
  depend on (theorems about formatted output only use values such as 0, 0.25
  that are exact in `f32` and printed identically by Rust `Display`).
* External crates (quick-xml, serde_json) are modelled at the interface the
  wrapper uses: the event reader/writer is reproduced for well-formed tag
  soup (attribute values re-emitted by the writer are not entity-escaped in
  the model), and `serde_json::from_str` is an abstract parse outcome
  (`Except String Json`) carried in the shim environment.
-/

/-! ## Executable rational arithmetic

The Mathlib operations `Rat.add`/`Rat.mul`/`Rat.inv` are irreducible, so the embedding
computes through `Rat.divInt`, which reduces; the bridge lemmas `qadd_eq`,
`qmul_eq`, `qsub_eq`, `qdiv_eq`, `qneg_eq`, `castIntQ_eq`, `qceil_eq` in the
theorem section identify these operations with the standard field operations
and `Int.ceil` on `ℚ`. -/

/-- Executable rational addition (`= a + b`). -/
def qadd (a b : ℚ) : ℚ := Rat.divInt (a.num * b.den + b.num * a.den) (a.den * b.den)

/-- Executable rational multiplication (`= a * b`). -/
def qmul (a b : ℚ) : ℚ := Rat.divInt (a.num * b.num) (a.den * b.den)

/-- Executable rational division (`= a / b`). -/
def qdiv (a b : ℚ) : ℚ := Rat.divInt (a.num * b.den) (a.den * b.num)

/-- Executable rational negation (`= -a`). -/
def qneg (a : ℚ) : ℚ := Rat.divInt (-a.num) a.den

/-- Executable rational subtraction (`= a - b`). -/
def qsub (a b : ℚ) : ℚ := qadd a (qneg b)

/-- Executable `Int → ℚ` embedding (`= (n : ℚ)`). -/
def castIntQ (n : Int) : ℚ := Rat.divInt n 1

/-- Executable floor of a rational (`= Int.floor q`). -/
def qfloor (q : ℚ) : Int := q.num / (q.den : Int)

/-- Executable ceiling of a rational (`= Int.ceil q`). -/
def qceil (q : ℚ) : Int := -(qfloor (qneg q))

/-- Whitespace test used for Rust `char::is_whitespace`/`split_whitespace`
and `str::trim` (the documents handled here contain only ASCII whitespace). -/
def isWS (c : Char) : Bool :=
  c = ' ' ∨ c = '\t' ∨ c = '\n' ∨ c = '\r'

/-- Characters accepted into a numeric token by the `d`-attribute scanner
(lib.rs lines 929-931: digits, minus sign, decimal point). -/
def isNumChar (c : Char) : Bool :=
  c.isDigit ∨ c = '-' ∨ c = '.'

/-- Index of the first occurrence of `pat` in `hay` (Rust `str::find` for a
string pattern; byte index equals char index on the ASCII inputs used). -/
def findIn (pat : List Char) : List Char → Option Nat
  | [] => if pat = [] then some 0 else none
  | c :: rest =>
    if pat.isPrefixOf (c :: rest) then some 0
    else (findIn pat rest).map (· + 1)

/-- Split a character list at every separator (characters satisfying `p`),
keeping empty pieces, as Rust `str::split` does. -/
def runsSplit (p : Char → Bool) : List Char → List (List Char)
  | [] => [[]]
  | c :: rest =>
    if p c then [] :: runsSplit p rest
    else
      match runsSplit p rest with
      | h :: t => (c :: h) :: t
      | [] => [[c]]

/-- Rust `str::split_whitespace`: split on whitespace runs, dropping empties. -/
def splitWS (l : List Char) : List (List Char) :=
  (runsSplit isWS l).filter (fun r => ¬ (r = []))

/-- Rust `str::trim` (restricted to the ASCII whitespace used here). -/
def trimWS (l : List Char) : List Char :=
  ((l.dropWhile isWS).reverse.dropWhile isWS).reverse

/-- Numeric value of a digit string. -/
def digitsVal (ds : List Char) : Nat :=
  ds.foldl (fun a c => a * 10 + (c.toNat - 48)) 0

/-- Rust `str::parse::<f32>()` restricted to the grammar reachable from the
scanners: optional leading minus, then decimal digits with at most one dot and
at least one digit.  (Rust additionally accepts exponents and `inf`/`NaN`
spellings, which contain letters and never survive the numeric-token charsets
or the matrix values of the upstream renderer.)  The value is exact in `ℚ`. -/
def parseRatL (s : List Char) : Option ℚ :=
  let core := fun (t : List Char) =>
    match runsSplit (fun c => c = '.') t with
    | [ip] =>
      if ip ≠ [] ∧ ip.all Char.isDigit then some ((digitsVal ip : ℚ)) else none
    | [ip, fp] =>
      if (ip ≠ [] ∨ fp ≠ []) ∧ ip.all Char.isDigit ∧ fp.all Char.isDigit then
        some (qadd (digitsVal ip : ℚ) (qdiv (digitsVal fp : ℚ) ((10 ^ fp.length : ℕ) : ℚ)))
      else none
    | _ => none
  match s with
  | '-' :: t => (core t).map (fun q => qneg q)
  | t => core t

/-- `fold(f32::NEG_INFINITY, f32::max)` (lib.rs line 1054): the maximum of a
numeric list; only consumed on non-empty lists, where the sentinel vanishes. -/
def maxQ : List ℚ → ℚ
  | [] => 0
  | x :: xs => xs.foldl max x

/-- Rust saturating float-to-`i32` cast (`max_y.ceil() as i32`). -/
def clampI32 (x : Int) : Int :=
  max (-(2 ^ 31)) (min (2 ^ 31 - 1) x)

/-- Decimal digits of a natural number. -/
def natDigits (n : Nat) : List Char :=
  (toString n).data

/-- Smallest `k ≤ fuel` with `d ∣ 10 ^ k` (exists whenever `d = 2^a * 5^b`,
which is the case for every denominator arising from the decimal literals and
matrix arithmetic of the scanned documents). -/
def findK (d : Nat) : Nat → Nat → Option Nat
  | 0, _ => none
  | fuel + 1, k => if 10 ^ k % d = 0 then some k else findK d fuel (k + 1)

/-- Left-pad a digit string with zeros to length `k`. -/
def padZeros (l : List Char) (k : Nat) : List Char :=
  List.replicate (k - l.length) '0' ++ l

/-- Shortest decimal rendering of a non-negative rational with terminating
decimal expansion; agrees with Rust `f32` `Display` on the values for which
the development asserts formatted output (exactly representable ones). -/
def formatQnn (q : ℚ) : List Char :=
  match findK q.den 128 0 with
  | none => natDigits q.num.toNat ++ ('/' :: natDigits q.den)
  | some k =>
    let m := q.num.toNat * 10 ^ k / q.den
    if k = 0 then natDigits m
    else natDigits (m / 10 ^ k) ++ ('.' :: padZeros (natDigits (m % 10 ^ k)) k)

/-- Decimal rendering of a rational (`Display` of the modelled `f32`). -/
def formatQ (q : ℚ) : List Char :=
  if q < 0 then '-' :: formatQnn (-q) else formatQnn q

/-- Substring test, used to state facts about produced documents. -/
def hasSub (s pat : String) : Bool :=
  (findIn pat.data s.data).isSome

/-- Value of the first `height="..."` attribute occurrence in a document
(observer mirroring the repository test helper `extract_height`,
lib.rs lines 2084-2092). -/
def heightVal (s : String) : Option String :=
  match findIn ("height=\"").data s.data with
  | none => none
  | some i =>
    let after := s.data.drop (i + 8)
    (findIn [('"' : Char)] after).map (fun j => String.mk (after.take j))

/-! ## The `d`-attribute tokenizer (lib.rs lines 922-965) -/

/-- The character-at-a-time tokenizer loop: `cur` holds the pending token in
reverse.  Characters in the numeric charset extend the token; every other
character (separators, path-command letters, anything else) flushes it through
`parse::<f32>()`, dropping failures; a final flush happens at end of input. -/
def dToksAux : List Char → List Char → List ℚ
  | [], cur => (parseRatL cur.reverse).toList
  | c :: rest, cur =>
    if isNumChar c then dToksAux rest (c :: cur)
    else (parseRatL cur.reverse).toList ++ dToksAux rest []

/-- Flat numeric token sequence of a `d` attribute. -/
def dTokens (content : List Char) : List ℚ :=
  dToksAux content []

/-- Pair consecutive tokens as `(x, y)` and keep the (optionally transformed)
`y` of each pair; a trailing unpaired token is dropped (lib.rs lines 971-990).
With an active matrix the Y-row `b*x + d*y + f` is applied. -/
def pairYs (m : Option (ℚ × ℚ × ℚ × ℚ × ℚ × ℚ)) : List ℚ → List ℚ
  | x :: y :: rest =>
    (match m with
     | some (_, b, _, d, _, f) => qadd (qadd (qmul b x) (qmul d y)) f
     | none => y) :: pairYs m rest
  | _ => []

/-- `"<path"` search pattern. -/
def pathPat : List Char := ("<path").data

/-- `"transform=\"matrix("` search pattern (18 characters, matching the
hard-coded skip in lib.rs line 891). -/
def tfPat : List Char := ("transform=\"matrix(").data

/-- `"d=\""` search pattern. -/
def dPat : List Char := ("d=\"").data

/-- Transform-matrix lookup for a path (lib.rs lines 889-912): searches for
the literal `transform="matrix(` anywhere at or after `pathStart` — note the
search is NOT bounded by the end of the current element — takes the characters
up to the next `)`, splits on commas, trims, parses each piece as `f32`
dropping failures, and uses the first six surviving values. -/
def matrixFrom (svg : List Char) (pathStart : Nat) :
    Option (ℚ × ℚ × ℚ × ℚ × ℚ × ℚ) :=
  match findIn tfPat (svg.drop pathStart) with
  | none => none
  | some ti =>
    let tStart := pathStart + ti + 18
    match findIn [(')' : Char)] (svg.drop tStart) with
    | none => none
    | some cp =>
      let pieces := runsSplit (fun c => c = ',') ((svg.drop tStart).take cp)
      match pieces.map trimWS |>.filterMap parseRatL with
      | a :: b :: c :: d :: e :: f :: _ => some (a, b, c, d, e, f)
      | _ => none

/-- Main scanning loop of `extract_y_coordinates` (lib.rs lines 883-999).
`searchStart` strictly increases on every iteration, so fuel `length + 1`
never runs out before the natural `None` exit. -/
def extractLoop (svg : List Char) : Nat → Nat → List ℚ
  | 0, _ => []
  | fuel + 1, searchStart =>
    match findIn pathPat (svg.drop searchStart) with
    | none => []
    | some rel =>
      let pathStart := searchStart + rel
      let m := matrixFrom svg pathStart
      match findIn dPat (svg.drop pathStart) with
      | none => extractLoop svg fuel (pathStart + 1)
      | some dRel =>
        let dStart := pathStart + dRel + 3
        match findIn [('"' : Char)] (svg.drop dStart) with
        | none => extractLoop svg fuel (pathStart + 1)
        | some dEnd =>
          pairYs m (dTokens ((svg.drop dStart).take dEnd)) ++
            extractLoop svg fuel (dStart + dEnd + 1)

/-- `extract_y_coordinates` (lib.rs lines 879-1002). -/
def extract_y_coordinates (svg : String) : List ℚ :=
  extractLoop svg.data (svg.data.length + 1) 0

/-- `add_dpi_to_svg` (lib.rs lines 838-852): insert ` data-dpi="N"` right
before the `>` closing the first `<svg` tag; unchanged when absent. -/
def add_dpi_to_svg (svg : String) (dpi : Int) : String :=
  match findIn ("<svg").data svg.data with
  | none => svg
  | some i =>
    match findIn [('>' : Char)] (svg.data.drop i) with
    | none => svg
    | some rel =>
      let j := i + rel
      String.mk (svg.data.take j ++ (" data-dpi=\"").data ++
        (toString dpi).data ++ [('"' : Char)] ++ svg.data.drop j)

/-! ## quick-xml event model (as consumed by `adjust_svg_height_and_center`)

The reader is modelled for the tag soup the wrapper actually feeds it: tags
are delimited by the next `>` character (quick-xml also scans to the first
`>`), `</...>` is an end tag, a trailing `/` marks a self-closing (Empty)
element, `<!...>`/`<?...>` declarations and comments pass through verbatim,
and everything between tags is a Text event.  `bad` stands for a reader
error, on which the Rust loop breaks and returns the partial output. -/

inductive XEvent where
  | text (content : List Char)
  | startE (inner : List Char)
  | endE (inner : List Char)
  | emptyE (inner : List Char)
  | misc (raw : List Char)
  | bad
deriving DecidableEq

/-- Tokenize a document into reader events (fuel `length + 1` suffices:
every step consumes at least one character). -/
def readEvents : Nat → List Char → List XEvent
  | _, [] => []
  | 0, _ :: _ => [XEvent.bad]
  | fuel + 1, s =>
    match findIn [('<' : Char)] s with
    | none => [XEvent.text s]
    | some 0 =>
      match findIn [('>' : Char)] s with
      | none => [XEvent.bad]
      | some gi =>
        let inner := (s.drop 1).take (gi - 1)
        (match inner with
         | '/' :: nm => XEvent.endE nm
         | '!' :: _ => XEvent.misc (s.take (gi + 1))
         | '?' :: _ => XEvent.misc (s.take (gi + 1))
         | _ =>
           if inner.getLast? = some '/' then XEvent.emptyE inner.dropLast
           else XEvent.startE inner) :: readEvents fuel (s.drop (gi + 1))
    | some ti => XEvent.text (s.take ti) :: readEvents fuel (s.drop ti)

/-- Element name of a tag body: characters up to the first whitespace
(`BytesStart::name`). -/
def nameOf (inner : List Char) : List Char :=
  inner.takeWhile (fun c => ¬ isWS c ∧ ¬ (c = '/'))

/-- Attribute list of a tag body after its name: `key = "value"` or
`key = 'value'` pairs; a malformed remainder ends the iteration with the
pairs collected so far (the Rust code skips `Err` items of the quick-xml
attribute iterator, which stops yielding after an error). -/
def parseAttrsAux : Nat → List Char → List (List Char × List Char)
  | 0, _ => []
  | fuel + 1, s =>
    let s1 := s.dropWhile isWS
    match s1 with
    | [] => []
    | _ =>
      let key := s1.takeWhile (fun c => ¬ (c = '=') ∧ ¬ isWS c)
      if key = [] then []
      else
        match (s1.drop key.length).dropWhile isWS with
        | '=' :: s3 =>
          match s3.dropWhile isWS with
          | q :: s5 =>
            if q = '"' ∨ q = '\'' then
              let v := s5.takeWhile (fun c => ¬ (c = q))
              match s5.drop v.length with
              | _ :: s7 => (key, v) :: parseAttrsAux fuel s7
              | [] => []
            else []
          | [] => []
        | _ => []

/-- Attributes of a tag body. -/
def parseAttrs (inner : List Char) : List (List Char × List Char) :=
  parseAttrsAux (inner.length + 1) (inner.drop (nameOf inner).length)

/-- The literal key `height`. -/
def heightKey : List Char := ("height").data

/-- The literal key `viewBox`. -/
def viewBoxKey : List Char := ("viewBox").data

/-- Root-`<svg>` attribute rewrite (lib.rs lines 1091-1115): drop any
`height` attribute; rewrite the 4th component of a four-part `viewBox`
(single spaces, as `format!("{} {} {} {}", ...)` emits); pass everything else
through unchanged; finally append `height="new_height"`. -/
def rewriteAttrStep (nh : Int) (kv : List Char × List Char) :
    Option (List Char × List Char) :=
  if kv.1 = heightKey then none
  else if kv.1 = viewBoxKey then
    let parts := splitWS kv.2
    if parts.length = 4 then
      some (viewBoxKey,
        parts.getD 0 [] ++ (' ' :: parts.getD 1 []) ++ (' ' :: parts.getD 2 []) ++
          (' ' :: (toString nh).data))
    else some kv
  else some kv

/-- The full root-attribute rewrite: per-attribute step, then the appended
`height="new_height"`. -/
def rewriteSvgAttrs (attrs : List (List Char × List Char)) (nh : Int) :
    List (List Char × List Char) :=
  (attrs.filterMap (rewriteAttrStep nh)) ++ [(heightKey, (toString nh).data)]

/-- Writer form of an attribute list: ` key="value"` per attribute
(quick-xml writes pushed attributes double-quoted; the model does not
entity-escape values, see the header note). -/
def serializeAttrs : List (List Char × List Char) → List Char
  | [] => []
  | (k, v) :: rest => (' ' :: k) ++ ('=' :: '"' :: v) ++ ('"' :: serializeAttrs rest)

/-- Writer form of one pass-through event. -/
def serializeEv : XEvent → List Char
  | XEvent.text c => c
  | XEvent.startE i => '<' :: i ++ [('>' : Char)]
  | XEvent.endE i => '<' :: '/' :: i ++ [('>' : Char)]
  | XEvent.emptyE i => '<' :: i ++ [('/' : Char), ('>' : Char)]
  | XEvent.misc r => r
  | XEvent.bad => []

/-- Writer form of a list of pass-through events. -/
def serializeList (evs : List XEvent) : List Char :=
  (evs.map serializeEv).flatten

/-- The rebuilt root `<svg ...>` start tag (lib.rs lines 1085-1116). -/
def svgStartOut (inner : List Char) (nh : Int) : List Char :=
  ("<svg").data ++ serializeAttrs (rewriteSvgAttrs (parseAttrs inner) nh) ++
    [('>' : Char)]

/-- The injected `<g transform="translate(0, t)">` opening tag. -/
def gOpen (t : ℚ) : List Char :=
  ("<g transform=\"translate(0, ").data ++ formatQ t ++ (")\">").data

/-- The event loop of `adjust_svg_height_and_center` (lib.rs lines
1075-1167).  State: `insvg` (a `<svg>` start was seen), `g` (the wrapping
group is open), `acc` (written output).  `none` models the Rust loop never
returning: at end of events the real reader yields `Eof` forever and the loop
has no `Eof` arm, so a document without a closing `</svg>` never terminates;
a reader error (`bad`) breaks the loop and returns the partial output. -/
def adjLoop (nh : Int) (t : ℚ) :
    List XEvent → Bool → Bool → List Char → Option (List Char)
  | [], _, _, _ => none
  | XEvent.bad :: _, _, _, acc => some acc
  | XEvent.text c :: rest, insvg, g, acc => adjLoop nh t rest insvg g (acc ++ c)
  | XEvent.startE inner :: rest, insvg, g, acc =>
    if nameOf inner = ("svg").data then
      adjLoop nh t rest true g (acc ++ svgStartOut inner nh)
    else if insvg ∧ ¬ g then
      adjLoop nh t rest insvg true
        (acc ++ gOpen t ++ serializeEv (XEvent.startE inner))
    else adjLoop nh t rest insvg g (acc ++ serializeEv (XEvent.startE inner))
  | XEvent.endE inner :: rest, insvg, g, acc =>
    if insvg ∧ nameOf inner = ("svg").data then
      some (acc ++ (if g then ("</g>").data else []) ++
        serializeEv (XEvent.endE inner))
    else adjLoop nh t rest insvg g (acc ++ serializeEv (XEvent.endE inner))
  | XEvent.emptyE inner :: rest, insvg, g, acc =>
    if insvg ∧ ¬ g then
      adjLoop nh t rest insvg true
        (acc ++ gOpen t ++ serializeEv (XEvent.emptyE inner))
    else adjLoop nh t rest insvg g (acc ++ serializeEv (XEvent.emptyE inner))
  | XEvent.misc r :: rest, insvg, g, acc => adjLoop nh t rest insvg g (acc ++ r)

/-- New declared height used once an adjustment happens:
`max_y.ceil() as i32` (lib.rs line 1062). -/
def adjustNewHeight (svg : String) : Int :=
  clampI32 (qceil (maxQ (extract_y_coordinates svg)))

/-- Vertical translation of the wrapping group:
`(new_height as f32 - max_y) / 2.0` (lib.rs line 1063). -/
def adjustTranslate (svg : String) : ℚ :=
  qdiv (qsub (castIntQ (adjustNewHeight svg)) (maxQ (extract_y_coordinates svg))) 2

/-- `adjust_svg_height_and_center` (lib.rs lines 1042-1172).  `none` models
divergence of the Rust event loop (see `adjLoop`); both early returns yield
the input unchanged. -/
def adjust_svg_height_and_center (svg : String) : Option String :=
  let y_coords := extract_y_coordinates svg
  if y_coords = [] then some svg
  else if maxQ y_coords < Rat.divInt 1 50 then some svg
  else
    (adjLoop (adjustNewHeight svg) (adjustTranslate svg)
      (readEvents (svg.data.length + 1) svg.data) false false []).map String.mk

/-! ## UTF-8 validation (`String::from_utf8`, lib.rs lines 1306-1307) -/

/-- One decoding step per leading byte; on failure returns the byte index of
the start of the invalid sequence, matching `Utf8Error::valid_up_to`.
Fuel `length + 1` suffices (each step consumes at least one byte). -/
def utf8DecodeAux : Nat → List Nat → Nat → Except Nat (List Char)
  | _, [], _ => Except.ok []
  | 0, _ :: _, pos => Except.error pos
  | fuel + 1, b :: rest, pos =>
    if b ≤ 0x7F then
      match utf8DecodeAux fuel rest (pos + 1) with
      | Except.ok cs => Except.ok (Char.ofNat b :: cs)
      | Except.error k => Except.error k
    else if b < 0xC2 then Except.error pos
    else if b ≤ 0xDF then
      match rest with
      | b2 :: rest2 =>
        if 0x80 ≤ b2 ∧ b2 ≤ 0xBF then
          match utf8DecodeAux fuel rest2 (pos + 2) with
          | Except.ok cs => Except.ok (Char.ofNat ((b - 0xC0) * 0x40 + (b2 - 0x80)) :: cs)
          | Except.error k => Except.error k
        else Except.error pos
      | [] => Except.error pos
    else if b ≤ 0xEF then
      match rest with
      | b2 :: b3 :: rest3 =>
        if (if b = 0xE0 then 0xA0 else 0x80) ≤ b2 ∧
            b2 ≤ (if b = 0xED then 0x9F else 0xBF) ∧
            0x80 ≤ b3 ∧ b3 ≤ 0xBF then
          match utf8DecodeAux fuel rest3 (pos + 3) with
          | Except.ok cs =>
            Except.ok (Char.ofNat ((b - 0xE0) * 0x1000 + (b2 - 0x80) * 0x40 + (b3 - 0x80)) :: cs)
          | Except.error k => Except.error k
        else Except.error pos
      | _ => Except.error pos
    else if b ≤ 0xF4 then
      match rest with
      | b2 :: b3 :: b4 :: rest4 =>
        if (if b = 0xF0 then 0x90 else 0x80) ≤ b2 ∧
            b2 ≤ (if b = 0xF4 then 0x8F else 0xBF) ∧
            0x80 ≤ b3 ∧ b3 ≤ 0xBF ∧ 0x80 ≤ b4 ∧ b4 ≤ 0xBF then
          match utf8DecodeAux fuel rest4 (pos + 4) with
          | Except.ok cs =>
            Except.ok (Char.ofNat ((b - 0xF0) * 0x40000 + (b2 - 0x80) * 0x1000 +
              (b3 - 0x80) * 0x40 + (b4 - 0x80)) :: cs)
          | Except.error k => Except.error k
        else Except.error pos
      | _ => Except.error pos
    else Except.error pos

/-- `String::from_utf8` on a byte buffer: the decoded characters, or the
`valid_up_to` index of the wrapped `FromUtf8Error`. -/
def utf8Decode (bs : List Nat) : Except Nat (List Char) :=
  utf8DecodeAux (bs.length + 1) bs 0

/-! ## JSON values (the `serde_json::Value` surface used by the wrapper) -/

/-- Parsed JSON values.  Numbers distinguish the integer-backed
representation (for which `as_i64` succeeds in the `i64` range) from float
numbers (for which it fails), as in serde_json. -/
inductive Json where
  | null
  | bool (b : Bool)
  | intNum (n : Int)
  | floatNum (q : ℚ)
  | str (s : String)
  | arr (xs : List Json)
  | obj (kvs : List (String × Json))

/-- Key lookup in a JSON object member list (`Map::get`). -/
def lookupKv : List (String × Json) → String → Option Json
  | [], _ => none
  | (k, v) :: rest, key => if k = key then some v else lookupKv rest key

/-- `Value::get(key)`: member lookup on objects, `None` otherwise. -/
def Json.get : Json → String → Option Json
  | Json.obj kvs, key => lookupKv kvs key
  | _, _ => none

/-- `Value::as_i64`: integer-backed numbers within the `i64` range. -/
def Json.as_i64 : Json → Option Int
  | Json.intNum n => if -(2 ^ 63) ≤ n ∧ n < 2 ^ 63 then some n else none
  | _ => none

/-- `Value::as_f64`: any number (integer values converted). -/
def Json.as_f64 : Json → Option ℚ
  | Json.intNum n => some (castIntQ n)
  | Json.floatNum q => some q
  | _ => none

/-- `Value::as_array`. -/
def Json.as_array : Json → Option (List Json)
  | Json.arr xs => some xs
  | _ => none

/-- `Value::as_str`. -/
def Json.as_str : Json → Option String
  | Json.str s => some s
  | _ => none

/-- `Value::as_object` (the member list). -/
def Json.as_object : Json → Option (List (String × Json))
  | Json.obj kvs => some kvs
  | _ => none

/-- Rust wrapping `as i32` cast from `i64`. -/
def wrap32 (n : Int) : Int :=
  (n + 2 ^ 31) % 2 ^ 32 - 2 ^ 31

/-- `KeyCharMetrics` (lib.rs lines 684-703); `f32` fields modelled by `ℚ`. -/
structure KeyCharMetricsData where
  key_char_heights : List Int
  key_char_count : Int
  average_char_height : ℚ
  max_char_height : Int
  min_char_height : Int
  box_tree_height : ℚ
deriving DecidableEq

/-- `KeyCharMetrics::from_json` (lib.rs lines 726-773) after the
`serde_json::from_str` step, whose outcome is the argument: the only failure
is a failed parse (propagated by `?`); every individual field falls back to
its default via `and_then ... unwrap_or`.  (The error strings of the model
elide the quotes of the Rust originals.) -/
def KeyCharMetrics_from_json (parsed : Except String Json) :
    Except String KeyCharMetricsData :=
  match parsed with
  | Except.error e => Except.error e
  | Except.ok value =>
    Except.ok
      { key_char_heights :=
          (((value.get ("key_char_heights")).bind Json.as_array).map
            (fun arr => (arr.filterMap Json.as_i64).map wrap32)).getD []
        key_char_count := wrap32 (((value.get ("key_char_count")).bind Json.as_i64).getD 0)
        average_char_height := ((value.get ("average_char_height")).bind Json.as_f64).getD 0
        max_char_height := wrap32 (((value.get ("max_char_height")).bind Json.as_i64).getD 0)
        min_char_height := wrap32 (((value.get ("min_char_height")).bind Json.as_i64).getD 0)
        box_tree_height := ((value.get ("box_tree_height")).bind Json.as_f64).getD 0 }

/-! ## Render lifecycle (lib.rs lines 500-523, 1278-1515) -/

/-- `RenderError` (lib.rs lines 502-523).  `invalidUtf8` carries the
`valid_up_to` of the wrapped `FromUtf8Error`; `parseJsonFailed` carries the
message string. -/
inductive RenderError where
  | initializationFailed
  | parseRenderFailed
  | emptyOutput
  | invalidUtf8 (validUpTo : Nat)
  | parseJsonFailed (msg : String)
deriving DecidableEq

deriving instance DecidableEq for Except

/-- `RenderConfig` (lib.rs lines 529-552); floats modelled by `ℚ`. -/
structure RenderConfig where
  dpi : Int
  line_width : ℚ
  line_height : ℚ
  text_color : Nat
  has_background : Bool
  render_glyph_use_path : Bool
  enable_formula_numbering : Bool
deriving DecidableEq

/-- `RenderConfig::default` (lib.rs lines 554-566); `20.0/3.0` is exact here. -/
def RenderConfig.default : RenderConfig :=
  ⟨720, 20, Rat.divInt 20 3, 0xff000000, false, true, false⟩

/-- The argument tuple handed to `shim::microtex_parse_render` (lib.rs lines
1283-1291).  The shim forwards these seven values and hard-codes `0` for the
native numbering parameter (lib.rs line 125); `enable_formula_numbering` is
not among them. -/
structure ParseArgs where
  src : String
  dpi : Int
  line_width : ℚ
  line_height : ℚ
  text_color : Nat
  has_background : Bool
  render_glyph_use_path : Bool
deriving DecidableEq

/-- Trace of native calls issued by a render, in order. -/
inductive NativeCall where
  | parseRender (args : ParseArgs)
  | renderToSvg
  | renderToSvgMetrics
  | getKeyCharMetrics
  | freeBuffer
  | deleteRender
deriving DecidableEq

/-- The native side as seen through the shim: whether `parse_render` yields a
non-null handle for given arguments, the buffers the extraction calls return
(`none` = null pointer, the length is the list length), and the outcome of
`serde_json::from_str` on a decoded string. -/
structure ShimEnv where
  parse_ok : ParseArgs → Bool
  svg_buf : Option (List Nat)
  metrics_buf : Option (List Nat)
  kcm_buf : Option (List Nat)
  jsonOf : String → Except String Json

/-- `CString::new(latex_source).unwrap_or_else(|_| CString::new(""))`
(lib.rs lines 1279-1280): an interior NUL degrades to the empty string. -/
def cSourceOf (latex : String) : String :=
  if latex.data.contains (Char.ofNat 0) then "" else latex

/-- The `ParseArgs` a render call constructs from its inputs. -/
def renderArgs (latex : String) (cfg : RenderConfig) : ParseArgs :=
  ⟨cSourceOf latex, cfg.dpi, cfg.line_width, cfg.line_height, cfg.text_color,
    cfg.has_background, cfg.render_glyph_use_path⟩

/-- `MicroTex::render` (lib.rs lines 1278-1321), instrumented with the native
call trace.  The result is `none` when the post-processing event loop never
returns (see `adjLoop`).  Note the `String::from_utf8(...)?` at line 1307:
that early return issues neither `free_buffer` nor `delete_render`. -/
def renderM (env : ShimEnv) (latex : String) (cfg : RenderConfig) :
    Option (Except RenderError String) × List NativeCall :=
  let args := renderArgs latex cfg
  if env.parse_ok args = true then
    match env.svg_buf with
    | none =>
      (some (Except.error RenderError.emptyOutput),
        [NativeCall.parseRender args, NativeCall.renderToSvg, NativeCall.deleteRender])
    | some bs =>
      if bs.length = 0 then
        (some (Except.error RenderError.emptyOutput),
          [NativeCall.parseRender args, NativeCall.renderToSvg, NativeCall.deleteRender])
      else
        match utf8Decode bs with
        | Except.error k =>
          (some (Except.error (RenderError.invalidUtf8 k)),
            [NativeCall.parseRender args, NativeCall.renderToSvg])
        | Except.ok cs =>
          match adjust_svg_height_and_center (add_dpi_to_svg (String.mk cs) cfg.dpi) with
          | none => (none, [NativeCall.parseRender args, NativeCall.renderToSvg])
          | some out =>
            (some (Except.ok out),
              [NativeCall.parseRender args, NativeCall.renderToSvg,
                NativeCall.freeBuffer, NativeCall.deleteRender])
  else (some (Except.error RenderError.parseRenderFailed), [NativeCall.parseRender args])

/-- `get_key_char_metrics` (lib.rs lines 1487-1515) on a live handle, with
its call trace (its buffer is freed only on the fully successful path). -/
def getKeyCharMetricsM (env : ShimEnv) :
    Except RenderError KeyCharMetricsData × List NativeCall :=
  match env.kcm_buf with
  | none => (Except.error RenderError.emptyOutput, [NativeCall.getKeyCharMetrics])
  | some bs =>
    if bs.length = 0 then
      (Except.error RenderError.emptyOutput, [NativeCall.getKeyCharMetrics])
    else
      match utf8Decode bs with
      | Except.error k =>
        (Except.error (RenderError.invalidUtf8 k), [NativeCall.getKeyCharMetrics])
      | Except.ok cs =>
        match KeyCharMetrics_from_json (env.jsonOf (String.mk cs)) with
        | Except.error e =>
          (Except.error (RenderError.parseJsonFailed e), [NativeCall.getKeyCharMetrics])
        | Except.ok m =>
          (Except.ok m, [NativeCall.getKeyCharMetrics, NativeCall.freeBuffer])

/-- `RenderResult` (lib.rs lines 641-652) with the four metric fields inlined. -/
structure RenderResultData where
  svg : String
  width : Int
  height : Int
  depth : Int
  ascent : Int
  key_char_metrics : Option KeyCharMetricsData
deriving DecidableEq

/-- The strict `metrics` object decode of `render_to_svg_with_metrics`
(lib.rs lines 1413-1446): object lookup then four required integer fields,
each failing the whole call when missing or mistyped. -/
def decodeMetricsFields (kvs : List (String × Json)) :
    Except RenderError (Int × Int × Int × Int) :=
  match (lookupKv kvs ("width")).bind Json.as_i64 with
  | none => Except.error (RenderError.parseJsonFailed ("missing or invalid width"))
  | some w =>
    match (lookupKv kvs ("height")).bind Json.as_i64 with
    | none => Except.error (RenderError.parseJsonFailed ("missing or invalid height"))
    | some h =>
      match (lookupKv kvs ("depth")).bind Json.as_i64 with
      | none => Except.error (RenderError.parseJsonFailed ("missing or invalid depth"))
      | some d =>
        match (lookupKv kvs ("ascent")).bind Json.as_i64 with
        | none => Except.error (RenderError.parseJsonFailed ("missing or invalid ascent"))
        | some a => Except.ok (wrap32 w, wrap32 h, wrap32 d, wrap32 a)

/-- The strict top-level `metrics` decode (lib.rs lines 1413-1418). -/
def decodeMetricsObj (v : Json) : Except RenderError (Int × Int × Int × Int) :=
  match (v.get ("metrics")).bind Json.as_object with
  | none => Except.error (RenderError.parseJsonFailed ("missing metrics field"))
  | some kvs => decodeMetricsFields kvs

/-- The strict top-level `svg` decode (lib.rs lines 1400-1404). -/
def decodeSvgField (v : Json) : Except RenderError String :=
  match (v.get ("svg")).bind Json.as_str with
  | none => Except.error (RenderError.parseJsonFailed ("missing svg field"))
  | some s => Except.ok s

/-- `MicroTex::render_to_svg_with_metrics` (lib.rs lines 1360-1464),
instrumented with the native call trace.  All `?`/`ok_or_else` early returns
after buffer extraction (UTF-8 decode and every JSON failure) skip both
`free_buffer` and `delete_render`. -/
def renderWithMetricsM (env : ShimEnv) (latex : String) (cfg : RenderConfig) :
    Option (Except RenderError RenderResultData) × List NativeCall :=
  let args := renderArgs latex cfg
  if env.parse_ok args = true then
    match env.metrics_buf with
    | none =>
      (some (Except.error RenderError.emptyOutput),
        [NativeCall.parseRender args, NativeCall.renderToSvgMetrics, NativeCall.deleteRender])
    | some bs =>
      if bs.length = 0 then
        (some (Except.error RenderError.emptyOutput),
          [NativeCall.parseRender args, NativeCall.renderToSvgMetrics, NativeCall.deleteRender])
      else
        match utf8Decode bs with
        | Except.error k =>
          (some (Except.error (RenderError.invalidUtf8 k)),
            [NativeCall.parseRender args, NativeCall.renderToSvgMetrics])
        | Except.ok cs =>
          match env.jsonOf (String.mk cs) with
          | Except.error e =>
            (some (Except.error (RenderError.parseJsonFailed e)),
              [NativeCall.parseRender args, NativeCall.renderToSvgMetrics])
          | Except.ok v =>
            match decodeSvgField v with
            | Except.error e =>
              (some (Except.error e),
                [NativeCall.parseRender args, NativeCall.renderToSvgMetrics])
            | Except.ok rawSvg =>
              match adjust_svg_height_and_center (add_dpi_to_svg rawSvg cfg.dpi) with
              | none => (none, [NativeCall.parseRender args, NativeCall.renderToSvgMetrics])
              | some svgOut =>
                match decodeMetricsObj v with
                | Except.error e =>
                  (some (Except.error e),
                    [NativeCall.parseRender args, NativeCall.renderToSvgMetrics])
                | Except.ok (w, h, d, a) =>
                  let kcm := getKeyCharMetricsM env
                  (some (Except.ok
                    ⟨svgOut, w, h, d, a, kcm.1.toOption⟩),
                    [NativeCall.parseRender args, NativeCall.renderToSvgMetrics] ++
                      kcm.2 ++ [NativeCall.freeBuffer, NativeCall.deleteRender])
  else (some (Except.error RenderError.parseRenderFailed), [NativeCall.parseRender args])

/-! ## Event classifications and concrete documents used by the theorems -/

/-- Events the loop writes through verbatim without touching the svg/group
state: text and pass-through (declaration, comment) events. -/
def passiveEv : XEvent → Bool
  | XEvent.text _ => true
  | XEvent.misc _ => true
  | _ => false

/-- Element-child events that trigger the opening of the wrapping group:
a start tag not named `svg`, or any self-closing tag. -/
def firstElemOk : XEvent → Bool
  | XEvent.startE i => if nameOf i = ("svg").data then false else true
  | XEvent.emptyE _ => true
  | _ => false

/-- Events processed as plain pass-through once the group is open: anything
except a tag named `svg` and reader errors. -/
def midOk : XEvent → Bool
  | XEvent.startE i => if nameOf i = ("svg").data then false else true
  | XEvent.endE i => if nameOf i = ("svg").data then false else true
  | XEvent.emptyE _ => true
  | XEvent.text _ => true
  | XEvent.misc _ => true
  | XEvent.bad => false

/-- A root `<svg>` whose first child is a text node. -/
def c3input : String := "<svg>t<path d=\"M 1 5\"/></svg>"

/-- What `adjust_svg_height_and_center` produces on `c3input`. -/
def c3output : String :=
  "<svg height=\"5\">t<g transform=\"translate(0, 0)\"><path d=\"M 1 5\"/></g></svg>"

/-- The spec example document: max extracted Y is exactly 39.121094. -/
def c4svg : String := "<svg height=\"39\"><path d=\"M 10 20 L 30 39.121094 Z\"/></svg>"

/-- What `adjust_svg_height_and_center` produces on `c4svg`. -/
def c4out : String :=
  "<svg height=\"40\"><g transform=\"translate(0, 0.439453)\"><path d=\"M 10 20 L 30 39.121094 Z\"/></g></svg>"

/-- Attribute list of a typical root element. -/
def demoAttrs : List (List Char × List Char) :=
  [(("width").data, ("188").data), (heightKey, ("39").data),
   (viewBoxKey, ("0 0 188 39").data)]

/-- A document mixing single-quoted attribute values with a stray `<path`
prefix: the scanner reads `d="` inside the `cm` value, so the first pass and
the second pass (after the rewriter requotes `cm` with double quotes) extract
different Y sets. -/
def c8input : String :=
  "<pathZ/><svg cm='d=\"' viewBox='0 0 10 39.5'><path d=\"M 1 99\"/></svg>"

/-- A document in the renderer output form (double-quoted attributes, `d`
inside each path tag, one matrix transform). -/
def c8stable : String :=
  "<svg height=\"39\" viewBox=\"0 0 188 39\"><path d=\"M 10 20 L 30 39.121094 Z\"/><path d=\"M 2517.578181 1006.05471 L 5017.578237 1006.05471\" transform=\"matrix(0.02, 0, 0, 0.02, 0, 0)\"/></svg>"

/-- Shim environment driving the leak demonstrations: parse succeeds, the
SVG extraction returns the invalid UTF-8 buffer `[0xFF, 0xFF, 0xFF]`, the
metrics extraction returns valid UTF-8 whose JSON parse fails. -/
def envLeakDemo : ShimEnv :=
  ⟨fun _ => true, some [255, 255, 255], some [110, 106], none,
    fun _ => Except.error ("bad json")⟩

/-! ## Renderer-form documents (claim C8)

Structured view of the documents the upstream renderer emits: a root `<svg>`
start tag with double-quoted attributes, then self-closing `<path>` children,
each carrying its `d` attribute inside its own tag (further attributes such
as a `transform="matrix(...)"` may follow the `d`), then `</svg>`.  The
suffix-level reformulations `matrixFromS` and `extractS` of the scanner let
the scanning position be tracked as the remaining document. -/

/-- First six surviving values of a parsed matrix argument list. -/
def sixOf (l : List ℚ) : Option (ℚ × ℚ × ℚ × ℚ × ℚ × ℚ) :=
  match l with
  | a :: b :: c :: d :: e :: f :: _ => some (a, b, c, d, e, f)
  | _ => none

/-- Comma-split, trim and parse of the matrix argument text. -/
def mtake (l : List Char) : Option (ℚ × ℚ × ℚ × ℚ × ℚ × ℚ) :=
  sixOf (((runsSplit (fun c => c = ',') l).map trimWS).filterMap parseRatL)

/-- Matrix argument extraction from the text after `transform="matrix(`:
everything up to the next `)`. -/
def mparse (u : List Char) : Option (ℚ × ℚ × ℚ × ℚ × ℚ × ℚ) :=
  match findIn [(')' : Char)] u with
  | none => none
  | some cp => mtake (u.take cp)

/-- Suffix-level form of `matrixFrom`: the same unbounded search, expressed
on the remaining document from the path start. -/
def matrixFromS (s : List Char) : Option (ℚ × ℚ × ℚ × ℚ × ℚ × ℚ) :=
  match findIn tfPat s with
  | none => none
  | some ti => mparse (s.drop (ti + 18))

/-- Suffix-level form of `extractLoop`: the same branch structure, with the
current suffix standing for the absolute search position. -/
def extractS : List Char → Nat → List ℚ
  | _, 0 => []
  | s, fuel + 1 =>
    match findIn pathPat s with
    | none => []
    | some rel =>
      match findIn dPat (s.drop rel) with
      | none => extractS ((s.drop rel).drop 1) fuel
      | some dRel =>
        match findIn [('"' : Char)] ((s.drop rel).drop (dRel + 3)) with
        | none => extractS ((s.drop rel).drop 1) fuel
        | some dEnd =>
          pairYs (matrixFromS (s.drop rel))
              (dTokens (((s.drop rel).drop (dRel + 3)).take dEnd)) ++
            extractS (((s.drop rel).drop (dRel + 3)).drop (dEnd + 1)) fuel

/-- Occurrence of `pat` at index `i` of `s`. -/
def occursAt (pat s : List Char) (i : Nat) : Prop :=
  ∃ t, pat ++ t = s.drop i

/-- One `<path>` child of a renderer document: raw attribute text before the
`d` attribute, the `d` value, raw attribute text after it. -/
structure PathTag where
  mid : List Char
  dContent : List Char
  tail : List Char

/-- The tag body between `<` and the closing slash:
`path` ++ mid ++ ` d="` ++ dContent ++ `"` ++ tail. -/
def innerOf (p : PathTag) : List Char :=
  'p' :: 'a' :: 't' :: 'h' ::
    (p.mid ++ (' ' :: 'd' :: '=' :: '"' :: (p.dContent ++ ('"' :: p.tail))))

/-- The serialized self-closing tag. -/
def serializePath (p : PathTag) : List Char :=
  '<' :: innerOf p ++ [('/' : Char), ('>' : Char)]

/-- The serialized children followed by a document suffix. -/
def concatPaths : List PathTag → List Char → List Char
  | [], suffix => suffix
  | p :: rest, suffix => serializePath p ++ concatPaths rest suffix

/-- A whole document of the renderer output form:
`<svg` ++ rootAttrs ++ `>` ++ the path children ++ `</svg>`. -/
def rendererDoc (rootAttrs : List Char) (ps : List PathTag) : String :=
  String.mk ('<' :: 's' :: 'v' :: 'g' ::
    (rootAttrs ++ ('>' :: concatPaths ps (("</svg>").data))))

/-- Well-formedness of one path child: no stray angle brackets, no double
quote inside the `d` value, and the first `d="` at or after the tag's own
`<path` is the one carrying its `d` attribute. -/
abbrev pathOkP (p : PathTag) : Prop :=
  (∀ c ∈ p.mid, ¬ c = '<' ∧ ¬ c = '>')
  ∧ (∀ c ∈ p.dContent, ¬ c = '<' ∧ ¬ c = '>' ∧ ¬ c = '"')
  ∧ (∀ c ∈ p.tail, ¬ c = '<' ∧ ¬ c = '>')
  ∧ findIn dPat (("<path").data ++ p.mid ++ (" d=\"").data) =
      some (p.mid.length + 6)

/-- Structured Y extraction: each path contributes its `d` tokens, paired and
transformed by the first matrix literal at or after its own start — possibly
the matrix of a LATER sibling (the unbounded search of lib.rs line 890). -/
def pathsYs : List PathTag → List Char → List ℚ
  | [], _ => []
  | p :: rest, suffix =>
    pairYs (matrixFromS (serializePath p ++ concatPaths rest suffix))
      (dTokens p.dContent) ++ pathsYs rest suffix

/-- Root attribute text of `c8stable`. -/
def c8rootAttrs : List Char := (" height=\"39\" viewBox=\"0 0 188 39\"").data

/-- Path children of `c8stable`. -/
def c8paths : List PathTag :=
  [⟨[], ("M 10 20 L 30 39.121094 Z").data, []⟩,
   ⟨[], ("M 2517.578181 1006.05471 L 5017.578237 1006.05471").data,
    (" transform=\"matrix(0.02, 0, 0, 0.02, 0, 0)\"").data⟩]

/-! ## Helper lemmas -/

theorem qadd_eq (a b : ℚ) : qadd a b = a + b := by
  have ha : ((a.den : ℚ)) ≠ 0 := by exact_mod_cast a.den_nz
  have hb : ((b.den : ℚ)) ≠ 0 := by exact_mod_cast b.den_nz
  rw [qadd, Rat.divInt_eq_div]
  push_cast
  conv_rhs => rw [← Rat.num_div_den a, ← Rat.num_div_den b]
  rw [div_add_div _ _ ha hb]
  ring_nf

theorem qmul_eq (a b : ℚ) : qmul a b = a * b := by
  rw [qmul, Rat.divInt_eq_div]
  push_cast
  conv_rhs => rw [← Rat.num_div_den a, ← Rat.num_div_den b]
  rw [div_mul_div_comm]

theorem qneg_eq (a : ℚ) : qneg a = -a := by
  rw [qneg, Rat.divInt_eq_div]
  push_cast
  rw [neg_div, Rat.num_div_den]

theorem qsub_eq (a b : ℚ) : qsub a b = a - b := by
  rw [qsub, qadd_eq, qneg_eq, sub_eq_add_neg]

theorem castIntQ_eq (n : Int) : castIntQ n = (n : ℚ) := by
  rw [castIntQ, Rat.divInt_eq_div]
  norm_num

theorem qdiv_eq (a b : ℚ) : qdiv a b = a / b := by
  by_cases hb : b = 0
  · subst hb; rw [qdiv]; norm_num
  · have ha : ((a.den : ℚ)) ≠ 0 := by exact_mod_cast a.den_nz
    have hbd : ((b.den : ℚ)) ≠ 0 := by exact_mod_cast b.den_nz
    have hbn : ((b.num : ℚ)) ≠ 0 := by
      exact_mod_cast Rat.num_ne_zero.2 hb
    rw [qdiv, Rat.divInt_eq_div]
    push_cast
    conv_rhs => rw [← Rat.num_div_den a, ← Rat.num_div_den b]
    field_simp

theorem qfloor_eq (q : ℚ) : qfloor q = Int.floor q := by
  rw [qfloor]
  conv_rhs => rw [← Rat.num_div_den q]
  rw [Rat.floor_intCast_div_natCast]

theorem qceil_eq (q : ℚ) : qceil q = Int.ceil q := by
  rw [qceil, qfloor_eq, qneg_eq, Int.floor_neg, neg_neg]

theorem optToList_filterMap {α β : Type} (f : α → Option β) (a : α) (l : List α) :
    (f a).toList ++ l.filterMap f = (a :: l).filterMap f := by
  cases h : f a <;> simp [List.filterMap_cons, h]

theorem runsSplit_cons_ex (p : Char → Bool) (l : List Char) :
    ∃ h t, runsSplit p l = h :: t := by
  cases l with
  | nil => exact ⟨[], [], rfl⟩
  | cons c rest =>
    by_cases hp : p c
    · exact ⟨[], runsSplit p rest, by simp [runsSplit, hp]⟩
    · obtain ⟨h, t, ht⟩ := runsSplit_cons_ex p rest
      exact ⟨c :: h, t, by simp [runsSplit, hp, ht]⟩

theorem dToksAux_split (l : List Char) : ∀ cur : List Char,
    dToksAux l cur =
      match runsSplit (fun c => !isNumChar c) l with
      | h :: t => (parseRatL (cur.reverse ++ h)).toList ++ t.filterMap parseRatL
      | [] => [] := by
  induction l with
  | nil => intro cur; simp [dToksAux, runsSplit]
  | cons c rest ih =>
    intro cur
    by_cases hn : isNumChar c
    · obtain ⟨h, t, ht⟩ := runsSplit_cons_ex (fun c => !isNumChar c) rest
      have : dToksAux (c :: rest) cur = dToksAux rest (c :: cur) := by
        simp [dToksAux, hn]
      rw [this, ih (c :: cur)]
      simp [runsSplit, hn, ht]
    · obtain ⟨h, t, ht⟩ := runsSplit_cons_ex (fun c => !isNumChar c) rest
      have : dToksAux (c :: rest) cur =
          (parseRatL cur.reverse).toList ++ dToksAux rest [] := by
        simp [dToksAux, hn]
      rw [this, ih []]
      simp [runsSplit, hn, ht, optToList_filterMap]

theorem isPrefixOf_ex {pat l : List Char} :
    pat.isPrefixOf l = true ↔ ∃ t, pat ++ t = l :=
  List.isPrefixOf_iff_prefix

theorem occursAt_cons_succ (pat : List Char) (c : Char) (rest : List Char)
    (i : Nat) : occursAt pat (c :: rest) (i + 1) ↔ occursAt pat rest i := by
  rw [occursAt, occursAt, List.drop_succ_cons]

theorem occursAt_zero (pat s : List Char) :
    occursAt pat s 0 ↔ ∃ t, pat ++ t = s := by
  rw [occursAt, List.drop_zero]

theorem findIn_none_iff (pat : List Char) (hp : ¬ pat = []) :
    ∀ s : List Char, findIn pat s = none ↔ ∀ i, ¬ occursAt pat s i := by
  intro s
  induction s with
  | nil =>
    rw [findIn, if_neg hp]
    constructor
    · intro _ i hocc
      obtain ⟨t, ht⟩ := hocc
      rw [List.drop_nil] at ht
      exact hp ((List.append_eq_nil.mp ht).1)
    · intro _; rfl
  | cons c rest ih =>
    rw [findIn]
    by_cases hpre : pat.isPrefixOf (c :: rest) = true
    · rw [if_pos hpre]
      constructor
      · intro h; exact absurd h (by simp)
      · intro h
        exact absurd ((occursAt_zero pat _).mpr (isPrefixOf_ex.mp hpre)) (h 0)
    · rw [if_neg hpre, Option.map_eq_none', ih]
      constructor
      · intro h i
        cases i with
        | zero =>
          intro h0
          exact hpre (isPrefixOf_ex.mpr ((occursAt_zero pat _).mp h0))
        | succ i =>
          intro hs
          exact h i ((occursAt_cons_succ pat c rest i).mp hs)
      · intro h i hocc
        exact h (i + 1) ((occursAt_cons_succ pat c rest i).mpr hocc)

theorem findIn_some_iff (pat : List Char) (hp : ¬ pat = []) :
    ∀ (s : List Char) (k : Nat), findIn pat s = some k ↔
      occursAt pat s k ∧ ∀ j, j < k → ¬ occursAt pat s j := by
  intro s
  induction s with
  | nil =>
    intro k
    rw [findIn, if_neg hp]
    constructor
    · intro h; exact absurd h (by simp)
    · rintro ⟨⟨t, ht⟩, -⟩
      rw [List.drop_nil] at ht
      exact absurd ((List.append_eq_nil.mp ht).1) hp
  | cons c rest ih =>
    intro k
    rw [findIn]
    by_cases hpre : pat.isPrefixOf (c :: rest) = true
    · rw [if_pos hpre]
      constructor
      · intro h
        injection h with h
        subst h
        exact ⟨(occursAt_zero pat _).mpr (isPrefixOf_ex.mp hpre),
          fun j hj => absurd hj (Nat.not_lt_zero j)⟩
      · rintro ⟨h1, h2⟩
        cases k with
        | zero => rfl
        | succ k =>
          exact absurd ((occursAt_zero pat _).mpr (isPrefixOf_ex.mp hpre))
            (h2 0 (Nat.succ_pos k))
    · rw [if_neg hpre]
      have h0 : ¬ occursAt pat (c :: rest) 0 :=
        fun h => hpre (isPrefixOf_ex.mpr ((occursAt_zero pat _).mp h))
      cases k with
      | zero =>
        constructor
        · intro h
          exfalso
          cases hf : findIn pat rest with
          | none => rw [hf] at h; exact absurd h (by simp)
          | some m => rw [hf] at h; simp at h
        · rintro ⟨h1, -⟩; exact absurd h1 h0
      | succ k =>
        have hmap : ((findIn pat rest).map (· + 1) = some (k + 1)) ↔
            findIn pat rest = some k := by
          cases hf : findIn pat rest <;> simp
        rw [hmap, ih k]
        constructor
        · rintro ⟨h1, h2⟩
          refine ⟨(occursAt_cons_succ pat c rest k).mpr h1, ?_⟩
          intro j hj
          cases j with
          | zero => exact h0
          | succ j =>
            exact fun ho => h2 j (by omega) ((occursAt_cons_succ pat c rest j).mp ho)
        · rintro ⟨h1, h2⟩
          exact ⟨(occursAt_cons_succ pat c rest k).mp h1,
            fun j hj ho => h2 (j + 1) (by omega)
              ((occursAt_cons_succ pat c rest j).mpr ho)⟩

theorem findIn_bound (pat s : List Char) (k : Nat) (hp : ¬ pat = [])
    (h : findIn pat s = some k) : k + pat.length ≤ s.length := by
  obtain ⟨⟨t, ht⟩, -⟩ := (findIn_some_iff pat hp s k).mp h
  have hl := congrArg List.length ht
  have hpl : 0 < pat.length := List.length_pos.mpr hp
  rw [List.length_append, List.length_drop] at hl
  omega

theorem occursAt_append_inner (pat X S : List Char) (i : Nat)
    (h : i + pat.length ≤ X.length) :
    occursAt pat (X ++ S) i ↔ occursAt pat X i := by
  have hi : i ≤ X.length := by omega
  rw [occursAt, occursAt, List.drop_append_of_le_length hi]
  constructor
  · rintro ⟨t, ht⟩
    have hpat := congrArg (List.take pat.length) ht
    rw [List.take_left,
      List.take_append_of_le_length (by rw [List.length_drop]; omega)] at hpat
    refine ⟨(X.drop i).drop pat.length, ?_⟩
    nth_rewrite 1 [hpat]
    exact List.take_append_drop pat.length (X.drop i)
  · rintro ⟨t, ht⟩
    exact ⟨t ++ S, by rw [← List.append_assoc, ht]⟩

theorem occursAt_append_right (pat X S : List Char) (j : Nat) :
    occursAt pat (X ++ S) (X.length + j) ↔ occursAt pat S j := by
  rw [occursAt, occursAt, ← List.drop_drop, List.drop_left]

theorem occursAt_boundary (pat X S : List Char) (i : Nat)
    (h1 : occursAt pat (X ++ S) i) (h2 : i ≤ X.length)
    (h3 : X.length < i + pat.length) :
    ∃ c, S.head? = some c ∧ c ∈ pat := by
  obtain ⟨t, ht⟩ := h1
  rw [List.drop_append_of_le_length h2] at ht
  have hσ : (X.drop i).length < pat.length := by rw [List.length_drop]; omega
  have hS := congrArg (List.drop (X.drop i).length) ht
  rw [List.drop_append_of_le_length (le_of_lt hσ), List.drop_left] at hS
  cases hd : pat.drop (X.drop i).length with
  | nil =>
    exfalso
    have hlen := congrArg List.length hd
    rw [List.length_drop] at hlen
    simp at hlen
    omega
  | cons c cs =>
    rw [hd] at hS
    refine ⟨c, by rw [← hS]; rfl, ?_⟩
    have hm : c ∈ pat.drop (X.drop i).length := by
      rw [hd]; exact List.mem_cons_self c cs
    exact List.drop_subset _ pat hm

theorem occursAt_interior (pat X S : List Char) (i : Nat) (hp : ¬ pat = [])
    (hS : findIn pat S = none) (hdis : ∀ c, S.head? = some c → c ∉ pat)
    (hocc : occursAt pat (X ++ S) i) : i + pat.length ≤ X.length := by
  by_contra hgt
  push_neg at hgt
  by_cases hi : i ≤ X.length
  · obtain ⟨c, hc1, hc2⟩ := occursAt_boundary pat X S i hocc hi hgt
    exact hdis c hc1 hc2
  · push_neg at hi
    have h2 : occursAt pat S (i - X.length) := by
      have h3 : i = X.length + (i - X.length) := by omega
      rw [h3] at hocc
      exact (occursAt_append_right pat X S (i - X.length)).mp hocc
    exact (findIn_none_iff pat hp S).mp hS _ h2

theorem findIn_transfer (pat P Q : List Char) (k : Nat) (hp : ¬ pat = [])
    (h : findIn pat P = some k) (hk : k + pat.length ≤ P.length) :
    findIn pat (P ++ Q) = some k := by
  rw [findIn_some_iff pat hp] at h ⊢
  obtain ⟨h1, h2⟩ := h
  refine ⟨(occursAt_append_inner pat P Q k hk).mpr h1, ?_⟩
  intro j hj hocc
  exact h2 j hj ((occursAt_append_inner pat P Q j (by omega)).mp hocc)

theorem isPrefixOf_single (c a : Char) (l : List Char) :
    [c].isPrefixOf (a :: l) = (c == a) := by
  simp [List.isPrefixOf]

theorem findIn_single_none (c : Char) : ∀ A : List Char, c ∉ A →
    findIn [c] A = none := by
  intro A
  induction A with
  | nil => intro _; rw [findIn, if_neg (by simp)]
  | cons a A ih =>
    intro h
    rw [findIn]
    have hne : ¬ [c].isPrefixOf (a :: A) = true := by
      rw [isPrefixOf_single]
      simp only [beq_iff_eq]
      intro he
      exact h (by rw [he]; exact List.mem_cons_self a A)
    rw [if_neg hne, ih (fun hm => h (List.mem_cons_of_mem a hm))]
    rfl

theorem findIn_single_first (c : Char) : ∀ (A Z : List Char), c ∉ A →
    findIn [c] (A ++ c :: Z) = some A.length := by
  intro A
  induction A with
  | nil =>
    intro Z _
    rw [List.nil_append, findIn,
      if_pos (by rw [isPrefixOf_single]; exact beq_self_eq_true c)]
    rfl
  | cons a A ih =>
    intro Z h
    rw [List.cons_append, findIn]
    have hne : ¬ [c].isPrefixOf (a :: (A ++ c :: Z)) = true := by
      rw [isPrefixOf_single]
      simp only [beq_iff_eq]
      intro he
      exact h (by rw [he]; exact List.mem_cons_self a A)
    rw [if_neg hne, ih Z (fun hm => h (List.mem_cons_of_mem a hm))]
    simp

theorem findIn_single_append (c : Char) (S : List Char) (hS : c ∉ S) :
    ∀ A : List Char, findIn [c] (A ++ S) = findIn [c] A := by
  intro A
  induction A with
  | nil =>
    rw [List.nil_append, findIn_single_none c S hS, findIn, if_neg (by simp)]
  | cons a A ih =>
    rw [List.cons_append, findIn, findIn]
    by_cases hpre : [c].isPrefixOf (a :: A) = true
    · rw [if_pos hpre, if_pos (by rw [isPrefixOf_single] at hpre ⊢; exact hpre)]
    · rw [if_neg hpre, if_neg (by rw [isPrefixOf_single] at hpre ⊢; exact hpre),
        ih]

theorem findIn_head_shift (pat : List Char) (h0 : Char) (pt : List Char)
    (hpat : pat = h0 :: pt) :
    ∀ (B Z : List Char), (∀ c ∈ B, ¬ c = h0) →
      findIn pat (B ++ Z) = (findIn pat Z).map (· + B.length) := by
  intro B
  induction B with
  | nil =>
    intro Z _
    rw [List.nil_append]
    cases h : findIn pat Z <;> simp
  | cons b B ih =>
    intro Z hB
    rw [List.cons_append, findIn]
    have hb : ¬ b = h0 := hB b (List.mem_cons_self b B)
    have hpre : ¬ pat.isPrefixOf (b :: (B ++ Z)) = true := by
      rw [hpat]
      intro hcontra
      obtain ⟨t, ht⟩ := isPrefixOf_ex.mp hcontra
      rw [List.cons_append] at ht
      injection ht with ht1 _
      exact hb ht1.symm
    rw [if_neg hpre, ih Z (fun ch hc => hB ch (List.mem_cons_of_mem b hc))]
    cases h : findIn pat Z <;> simp
    omega

theorem findIn_pathPat_block (b : Char) (A Z : List Char)
    (hb : ¬ b = 'p') (hb2 : ¬ b = '<') (hA : ∀ c ∈ A, ¬ c = '<') :
    findIn pathPat (('<' :: b :: A) ++ Z) =
      (findIn pathPat Z).map (· + (A.length + 2)) := by
  rw [List.cons_append, List.cons_append, findIn]
  have hpre : ¬ pathPat.isPrefixOf ('<' :: b :: (A ++ Z)) = true := by
    intro h
    obtain ⟨t, ht⟩ := isPrefixOf_ex.mp h
    rw [show pathPat = '<' :: 'p' :: 'a' :: 't' :: 'h' :: [] from rfl] at ht
    injection ht with _ ht2
    injection ht2 with ht3 _
    exact hb ht3.symm
  rw [if_neg hpre,
    show b :: (A ++ Z) = (b :: A) ++ Z from rfl,
    findIn_head_shift pathPat '<' ('p' :: 'a' :: 't' :: 'h' :: []) rfl (b :: A) Z
      (by
        intro ch hc
        rcases List.mem_cons.mp hc with h | h
        · rw [h]; exact hb2
        · exact hA ch h)]
  cases h : findIn pathPat Z <;> simp
  omega

theorem findIn_single_none_mem (c : Char) (A : List Char)
    (h : findIn [c] A = none) : c ∉ A := by
  intro hm
  obtain ⟨l1, l2, rfl⟩ := List.append_of_mem hm
  refine (findIn_none_iff [c] (by simp) _).mp h l1.length ⟨l2, ?_⟩
  rw [List.drop_left]
  rfl

theorem matrixFrom_none (svg : List Char) (p : Nat)
    (h : findIn tfPat (svg.drop p) = none) : matrixFrom svg p = none := by
  simp only [matrixFrom, h]

theorem matrixFrom_qnone (svg : List Char) (p ti : Nat)
    (h1 : findIn tfPat (svg.drop p) = some ti)
    (h2 : findIn [(')' : Char)] (svg.drop (p + ti + 18)) = none) :
    matrixFrom svg p = none := by
  simp only [matrixFrom, h1, h2]

theorem matrixFrom_val (svg : List Char) (p ti cp : Nat)
    (h1 : findIn tfPat (svg.drop p) = some ti)
    (h2 : findIn [(')' : Char)] (svg.drop (p + ti + 18)) = some cp) :
    matrixFrom svg p = mtake ((svg.drop (p + ti + 18)).take cp) := by
  simp only [matrixFrom, h1, h2, mtake, sixOf]

theorem matrixFromS_none (s : List Char)
    (h : findIn tfPat s = none) : matrixFromS s = none := by
  simp only [matrixFromS, h]

theorem matrixFromS_val (s : List Char) (ti : Nat)
    (h : findIn tfPat s = some ti) :
    matrixFromS s = mparse (s.drop (ti + 18)) := by
  simp only [matrixFromS, h]

theorem mparse_none (u : List Char)
    (h : findIn [(')' : Char)] u = none) : mparse u = none := by
  simp only [mparse, h]

theorem mparse_val (u : List Char) (cp : Nat)
    (h : findIn [(')' : Char)] u = some cp) : mparse u = mtake (u.take cp) := by
  simp only [mparse, h]

theorem matrixFrom_eq (svg : List Char) (p : Nat) :
    matrixFrom svg p = matrixFromS (svg.drop p) := by
  cases h1 : findIn tfPat (svg.drop p) with
  | none => rw [matrixFrom_none svg p h1, matrixFromS_none _ h1]
  | some ti =>
    have e : (svg.drop p).drop (ti + 18) = svg.drop (p + ti + 18) := by
      rw [List.drop_drop, ← Nat.add_assoc]
    rw [matrixFromS_val _ ti h1, e]
    cases h2 : findIn [(')' : Char)] (svg.drop (p + ti + 18)) with
    | none => rw [matrixFrom_qnone svg p ti h1 h2, mparse_none _ h2]
    | some cp => rw [matrixFrom_val svg p ti cp h1 h2, mparse_val _ cp h2]

theorem mparse_congr (A S S' : List Char)
    (h2 : findIn [(')' : Char)] S = none)
    (h2' : findIn [(')' : Char)] S' = none) :
    mparse (A ++ S) = mparse (A ++ S') := by
  have e := findIn_single_append ')' S (findIn_single_none_mem ')' S h2) A
  have e' := findIn_single_append ')' S' (findIn_single_none_mem ')' S' h2') A
  cases hcp : findIn [(')' : Char)] A with
  | none =>
    rw [mparse_none _ (by rw [e]; exact hcp), mparse_none _ (by rw [e']; exact hcp)]
  | some cp =>
    have hb := findIn_bound [(')' : Char)] A cp (by simp) hcp
    have hble : cp ≤ A.length := by simp at hb; omega
    have ht : (A ++ S).take cp = A.take cp := List.take_append_of_le_length hble
    have ht' : (A ++ S').take cp = A.take cp := List.take_append_of_le_length hble
    rw [mparse_val _ cp (by rw [e]; exact hcp),
      mparse_val _ cp (by rw [e']; exact hcp), ht, ht']

theorem matrixFromS_suffix_congr (X S S' : List Char)
    (h1 : findIn tfPat S = none) (h1' : findIn tfPat S' = none)
    (h2 : findIn [(')' : Char)] S = none)
    (h2' : findIn [(')' : Char)] S' = none)
    (h3 : S.head? = some '<') (h3' : S'.head? = some '<') :
    matrixFromS (X ++ S) = matrixFromS (X ++ S') := by
  have hne : ¬ tfPat = [] := by decide
  have hdis : ∀ c, S.head? = some c → c ∉ tfPat := by
    intro c hc
    rw [h3] at hc
    injection hc with hc
    rw [← hc]
    decide
  have hdis' : ∀ c, S'.head? = some c → c ∉ tfPat := by
    intro c hc
    rw [h3'] at hc
    injection hc with hc
    rw [← hc]
    decide
  have htrans : ∀ i, occursAt tfPat (X ++ S) i ↔ occursAt tfPat (X ++ S') i := by
    intro i
    constructor
    · intro h
      have hint := occursAt_interior tfPat X S i hne h1 hdis h
      exact (occursAt_append_inner tfPat X S' i hint).mpr
        ((occursAt_append_inner tfPat X S i hint).mp h)
    · intro h
      have hint := occursAt_interior tfPat X S' i hne h1' hdis' h
      exact (occursAt_append_inner tfPat X S i hint).mpr
        ((occursAt_append_inner tfPat X S' i hint).mp h)
  cases hfs : findIn tfPat (X ++ S) with
  | none =>
    have hfs' : findIn tfPat (X ++ S') = none := by
      rw [findIn_none_iff tfPat hne] at hfs ⊢
      intro i h
      exact hfs i ((htrans i).mpr h)
    rw [matrixFromS_none _ hfs, matrixFromS_none _ hfs']
  | some ti =>
    have hocc := (findIn_some_iff tfPat hne _ ti).mp hfs
    have hint : ti + tfPat.length ≤ X.length :=
      occursAt_interior tfPat X S ti hne h1 hdis hocc.1
    have hfs' : findIn tfPat (X ++ S') = some ti := by
      rw [findIn_some_iff tfPat hne]
      exact ⟨(htrans ti).mp hocc.1, fun j hj h => hocc.2 j hj ((htrans j).mpr h)⟩
    have hlen : tfPat.length = 18 := by decide
    have hti : ti + 18 ≤ X.length := by omega
    have hd : (X ++ S).drop (ti + 18) = X.drop (ti + 18) ++ S :=
      List.drop_append_of_le_length hti
    have hd' : (X ++ S').drop (ti + 18) = X.drop (ti + 18) ++ S' :=
      List.drop_append_of_le_length hti
    rw [matrixFromS_val _ ti hfs, matrixFromS_val _ ti hfs', hd, hd']
    exact mparse_congr (X.drop (ti + 18)) S S' h2 h2'

theorem extractS_pnone (s : List Char) (fuel : Nat)
    (h : findIn pathPat s = none) : extractS s (fuel + 1) = [] := by
  simp only [extractS, h]

theorem extractS_dnone (s : List Char) (fuel rel : Nat)
    (h1 : findIn pathPat s = some rel)
    (h2 : findIn dPat (s.drop rel) = none) :
    extractS s (fuel + 1) = extractS ((s.drop rel).drop 1) fuel := by
  simp only [extractS, h1, h2]

theorem extractS_qnone (s : List Char) (fuel rel dRel : Nat)
    (h1 : findIn pathPat s = some rel)
    (h2 : findIn dPat (s.drop rel) = some dRel)
    (h3 : findIn [('"' : Char)] ((s.drop rel).drop (dRel + 3)) = none) :
    extractS s (fuel + 1) = extractS ((s.drop rel).drop 1) fuel := by
  simp only [extractS, h1, h2, h3]

theorem extractS_step (s : List Char) (fuel rel dRel dEnd : Nat)
    (h1 : findIn pathPat s = some rel)
    (h2 : findIn dPat (s.drop rel) = some dRel)
    (h3 : findIn [('"' : Char)] ((s.drop rel).drop (dRel + 3)) = some dEnd) :
    extractS s (fuel + 1) =
      pairYs (matrixFromS (s.drop rel))
          (dTokens (((s.drop rel).drop (dRel + 3)).take dEnd)) ++
        extractS (((s.drop rel).drop (dRel + 3)).drop (dEnd + 1)) fuel := by
  simp only [extractS, h1, h2, h3]

theorem extractLoop_pnone (svg : List Char) (fuel start : Nat)
    (h : findIn pathPat (svg.drop start) = none) :
    extractLoop svg (fuel + 1) start = [] := by
  simp only [extractLoop, h]

theorem extractLoop_dnone (svg : List Char) (fuel start rel : Nat)
    (h1 : findIn pathPat (svg.drop start) = some rel)
    (h2 : findIn dPat (svg.drop (start + rel)) = none) :
    extractLoop svg (fuel + 1) start = extractLoop svg fuel (start + rel + 1) := by
  simp only [extractLoop, h1, h2]

theorem extractLoop_qnone (svg : List Char) (fuel start rel dRel : Nat)
    (h1 : findIn pathPat (svg.drop start) = some rel)
    (h2 : findIn dPat (svg.drop (start + rel)) = some dRel)
    (h3 : findIn [('"' : Char)] (svg.drop (start + rel + dRel + 3)) = none) :
    extractLoop svg (fuel + 1) start = extractLoop svg fuel (start + rel + 1) := by
  simp only [extractLoop, h1, h2, h3]

theorem extractLoop_step (svg : List Char) (fuel start rel dRel dEnd : Nat)
    (h1 : findIn pathPat (svg.drop start) = some rel)
    (h2 : findIn dPat (svg.drop (start + rel)) = some dRel)
    (h3 : findIn [('"' : Char)] (svg.drop (start + rel + dRel + 3)) = some dEnd) :
    extractLoop svg (fuel + 1) start =
      pairYs (matrixFrom svg (start + rel))
          (dTokens ((svg.drop (start + rel + dRel + 3)).take dEnd)) ++
        extractLoop svg fuel (start + rel + dRel + 3 + dEnd + 1) := by
  simp only [extractLoop, h1, h2, h3]

theorem extractLoop_eq_extractS (svg : List Char) :
    ∀ (fuel start : Nat),
      extractLoop svg fuel start = extractS (svg.drop start) fuel := by
  intro fuel
  induction fuel with
  | zero => intro start; rfl
  | succ fuel ih =>
    intro start
    have e1 : ∀ k : Nat, (svg.drop start).drop k = svg.drop (start + k) :=
      fun k => List.drop_drop k start svg
    cases h1 : findIn pathPat (svg.drop start) with
    | none => rw [extractLoop_pnone svg fuel start h1, extractS_pnone _ fuel h1]
    | some rel =>
      cases h2 : findIn dPat (svg.drop (start + rel)) with
      | none =>
        rw [extractLoop_dnone svg fuel start rel h1 h2,
          extractS_dnone _ fuel rel h1 (by rw [e1]; exact h2), ih, e1,
          List.drop_drop]
      | some dRel =>
        have h2' : findIn dPat ((svg.drop start).drop rel) = some dRel := by
          rw [e1]; exact h2
        have e2 : ((svg.drop start).drop rel).drop (dRel + 3) =
            svg.drop (start + rel + dRel + 3) := by
          rw [e1, List.drop_drop, ← Nat.add_assoc]
        cases h3 : findIn [('"' : Char)] (svg.drop (start + rel + dRel + 3)) with
        | none =>
          rw [extractLoop_qnone svg fuel start rel dRel h1 h2 h3,
            extractS_qnone _ fuel rel dRel h1 h2' (by rw [e2]; exact h3), ih, e1,
            List.drop_drop]
        | some dEnd =>
          rw [extractLoop_step svg fuel start rel dRel dEnd h1 h2 h3,
            extractS_step _ fuel rel dRel dEnd h1 h2' (by rw [e2]; exact h3),
            ih, matrixFrom_eq, e1]
          simp [List.drop_drop, Nat.add_assoc]

theorem extract_eq_extractS (s : String) :
    extract_y_coordinates s = extractS s.data (s.data.length + 1) := by
  rw [extract_y_coordinates, extractLoop_eq_extractS, List.drop_zero]

theorem extractS_shift (B Z : List Char)
    (hB : findIn pathPat (B ++ Z) = (findIn pathPat Z).map (· + B.length)) :
    ∀ fuel, extractS (B ++ Z) fuel = extractS Z fuel := by
  intro fuel
  cases fuel with
  | zero => rfl
  | succ fuel =>
    cases h1 : findIn pathPat Z with
    | none =>
      rw [extractS_pnone _ _ (by rw [hB, h1]; rfl), extractS_pnone _ _ h1]
    | some rel =>
      have hBZ : findIn pathPat (B ++ Z) = some (rel + B.length) := by
        rw [hB, h1]; rfl
      have hdrop : (B ++ Z).drop (rel + B.length) = Z.drop rel := by
        rw [Nat.add_comm rel B.length, ← List.drop_drop, List.drop_left]
      cases h2 : findIn dPat (Z.drop rel) with
      | none =>
        rw [extractS_dnone _ fuel _ hBZ (by rw [hdrop]; exact h2),
          extractS_dnone _ fuel _ h1 h2, hdrop]
      | some dRel =>
        cases h3 : findIn [('"' : Char)] ((Z.drop rel).drop (dRel + 3)) with
        | none =>
          rw [extractS_qnone _ fuel _ _ hBZ (by rw [hdrop]; exact h2)
              (by rw [hdrop]; exact h3),
            extractS_qnone _ fuel _ _ h1 h2 h3, hdrop]
        | some dEnd =>
          rw [extractS_step _ fuel _ _ _ hBZ (by rw [hdrop]; exact h2)
              (by rw [hdrop]; exact h3),
            extractS_step _ fuel _ _ _ h1 h2 h3, hdrop]

theorem extractS_skip (B Z : List Char) (hB : ∀ c ∈ B, ¬ c = '<') :
    ∀ fuel, extractS (B ++ Z) fuel = extractS Z fuel :=
  extractS_shift B Z
    (findIn_head_shift pathPat '<' ('p' :: 'a' :: 't' :: 'h' :: []) rfl B Z hB)

theorem extractS_block (b : Char) (A Z : List Char)
    (hb : ¬ b = 'p') (hb2 : ¬ b = '<') (hA : ∀ c ∈ A, ¬ c = '<') :
    ∀ fuel, extractS (('<' :: b :: A) ++ Z) fuel = extractS Z fuel := by
  apply extractS_shift
  rw [findIn_pathPat_block b A Z hb hb2 hA]
  cases h : findIn pathPat Z <;> simp

theorem pathLit : ("<path").data = '<' :: 'p' :: 'a' :: 't' :: 'h' :: [] := rfl

theorem pathPatLit : pathPat = '<' :: 'p' :: 'a' :: 't' :: 'h' :: [] := rfl

theorem dAttrLit : ((" d=\"").data) = ' ' :: 'd' :: '=' :: '"' :: [] := rfl

theorem findIn_head_self (pat s : List Char) (h : pat.isPrefixOf s = true) :
    findIn pat s = some 0 := by
  cases s with
  | nil =>
    cases pat with
    | nil => rfl
    | cons a l => simp [List.isPrefixOf] at h
  | cons c r => rw [findIn, if_pos h]

theorem concatPaths_append (ps : List PathTag) (S : List Char) :
    concatPaths ps S = concatPaths ps [] ++ S := by
  induction ps with
  | nil => rfl
  | cons p rest ih => simp [concatPaths, ih, List.append_assoc]

theorem concatPaths_length (ps : List PathTag) (S : List Char) :
    ps.length ≤ (concatPaths ps S).length := by
  induction ps with
  | nil => simp [concatPaths]
  | cons p rest ih =>
    rw [concatPaths, List.length_append]
    have hpos : 0 < (serializePath p).length := by simp [serializePath]
    simp only [List.length_cons]
    omega

theorem extractS_paths : ∀ (ps : List PathTag) (suffix : List Char) (fuel : Nat),
    ps.length + 1 ≤ fuel → (∀ p ∈ ps, pathOkP p) →
    findIn pathPat suffix = none →
    extractS (concatPaths ps suffix) fuel = pathsYs ps suffix := by
  intro ps
  induction ps with
  | nil =>
    intro suffix fuel hf _ hsuf
    obtain ⟨f, rfl⟩ : ∃ f, fuel = f + 1 := ⟨fuel - 1, by omega⟩
    exact extractS_pnone suffix f hsuf
  | cons p rest ih =>
    intro suffix fuel hf hok hsuf
    obtain ⟨f, rfl⟩ : ∃ f, fuel = f + 1 := ⟨fuel - 1, by omega⟩
    obtain ⟨hmidc, hdc, htailc, hdfind⟩ := hok p (List.mem_cons_self p rest)
    rw [concatPaths]
    have hpre : pathPat.isPrefixOf (serializePath p ++ concatPaths rest suffix) =
        true := by
      rw [isPrefixOf_ex]
      refine ⟨(p.mid ++ (' ' :: 'd' :: '=' :: '"' :: (p.dContent ++ ('"' :: p.tail)))) ++
        ([('/' : Char), ('>' : Char)] ++ concatPaths rest suffix), ?_⟩
      simp [serializePath, innerOf, pathPatLit, List.append_assoc]
    have h0 : findIn pathPat (serializePath p ++ concatPaths rest suffix) =
        some 0 :=
      findIn_head_self pathPat _ hpre
    have hsplit : serializePath p ++ concatPaths rest suffix =
        (("<path").data ++ p.mid ++ (" d=\"").data) ++
          (p.dContent ++ ('"' ::
            (p.tail ++ ('/' :: '>' :: concatPaths rest suffix)))) := by
      simp [serializePath, innerOf, pathLit, dAttrLit, List.append_assoc]
    have hplen : p.mid.length + 6 + 3 =
        (("<path").data ++ p.mid ++ (" d=\"").data).length := by
      simp [pathLit, dAttrLit, List.length_append]
    have hdP : findIn dPat (serializePath p ++ concatPaths rest suffix) =
        some (p.mid.length + 6) := by
      rw [hsplit]
      refine findIn_transfer dPat _ _ _ (by decide) hdfind ?_
      have hd3 : dPat.length = 3 := by decide
      omega
    have hs2 : (serializePath p ++ concatPaths rest suffix).drop
        (p.mid.length + 6 + 3) =
        p.dContent ++ ('"' :: (p.tail ++ ('/' :: '>' :: concatPaths rest suffix))) := by
      rw [hsplit, hplen, List.drop_left]
    have hqm : ('"' : Char) ∉ p.dContent := by
      intro hm
      exact (hdc '"' hm).2.2 rfl
    have hq : findIn [('"' : Char)]
        (p.dContent ++ ('"' :: (p.tail ++ ('/' :: '>' :: concatPaths rest suffix)))) =
        some p.dContent.length :=
      findIn_single_first '"' p.dContent _ hqm
    have htake : (p.dContent ++ ('"' ::
        (p.tail ++ ('/' :: '>' :: concatPaths rest suffix)))).take p.dContent.length =
        p.dContent := List.take_left p.dContent _
    have hqsplit : p.dContent ++ ('"' ::
        (p.tail ++ ('/' :: '>' :: concatPaths rest suffix))) =
        (p.dContent ++ ['"']) ++ (p.tail ++ ('/' :: '>' :: concatPaths rest suffix)) := by
      simp [List.append_assoc]
    have hdropq : (p.dContent ++ ('"' ::
        (p.tail ++ ('/' :: '>' :: concatPaths rest suffix)))).drop
        (p.dContent.length + 1) =
        p.tail ++ ('/' :: '>' :: concatPaths rest suffix) := by
      rw [hqsplit, show p.dContent.length + 1 = (p.dContent ++ ['"']).length from by simp,
        List.drop_left]
    rw [extractS_step (serializePath p ++ concatPaths rest suffix) f 0
        (p.mid.length + 6) p.dContent.length h0
        (by rw [List.drop_zero]; exact hdP)
        (by rw [List.drop_zero, hs2]; exact hq)]
    rw [List.drop_zero, hs2, htake, hdropq]
    have hRsplit : p.tail ++ ('/' :: '>' :: concatPaths rest suffix) =
        (p.tail ++ [('/' : Char), ('>' : Char)]) ++ concatPaths rest suffix := by
      simp [List.append_assoc]
    rw [hRsplit, extractS_skip (p.tail ++ [('/' : Char), ('>' : Char)])
        (concatPaths rest suffix)
        (by
          intro c hc
          rcases List.mem_append.mp hc with h | h
          · exact (htailc c h).1
          · rcases List.mem_cons.mp h with h | h
            · rw [h]; decide
            · rcases List.mem_cons.mp h with h | h
              · rw [h]; decide
              · exact absurd h (List.not_mem_nil c)) f]
    rw [ih suffix f (by simp only [List.length_cons] at hf; omega)
        (fun q hq' => hok q (List.mem_cons_of_mem p hq')) hsuf]
    rfl

theorem pathsYs_suffix_congr (S S' : List Char)
    (h1 : findIn tfPat S = none) (h1' : findIn tfPat S' = none)
    (h2 : findIn [(')' : Char)] S = none)
    (h2' : findIn [(')' : Char)] S' = none)
    (h3 : S.head? = some '<') (h3' : S'.head? = some '<') :
    ∀ ps : List PathTag, pathsYs ps S = pathsYs ps S' := by
  intro ps
  induction ps with
  | nil => rfl
  | cons p rest ih =>
    rw [pathsYs, pathsYs, ih, concatPaths_append rest S, concatPaths_append rest S',
      ← List.append_assoc, ← List.append_assoc,
      matrixFromS_suffix_congr (serializePath p ++ concatPaths rest []) S S'
        h1 h1' h2 h2' h3 h3']

theorem digitChar_ne_lt (n : Nat) : ¬ Nat.digitChar n = '<' := by
  match n with
  | 0 => decide
  | 1 => decide
  | 2 => decide
  | 3 => decide
  | 4 => decide
  | 5 => decide
  | 6 => decide
  | 7 => decide
  | 8 => decide
  | 9 => decide
  | 10 => decide
  | 11 => decide
  | 12 => decide
  | 13 => decide
  | 14 => decide
  | 15 => decide
  | (m + 16) =>
    intro h
    unfold Nat.digitChar at h
    iterate 16 rw [if_neg (by omega)] at h
    exact absurd h (by decide)

theorem toDigitsCore_ne_lt (b : Nat) :
    ∀ (fuel n : Nat) (acc : List Char), (∀ c ∈ acc, ¬ c = '<') →
      ∀ c ∈ Nat.toDigitsCore b fuel n acc, ¬ c = '<' := by
  intro fuel
  induction fuel with
  | zero =>
    intro n acc hacc c hc
    rw [Nat.toDigitsCore] at hc
    exact hacc c hc
  | succ fuel ih =>
    intro n acc hacc c hc
    have heq : Nat.toDigitsCore b (fuel + 1) n acc =
        (if n / b = 0 then (n % b).digitChar :: acc
         else Nat.toDigitsCore b fuel (n / b) ((n % b).digitChar :: acc)) := by
      rw [Nat.toDigitsCore]
    rw [heq] at hc
    have hacc2 : ∀ d ∈ (n % b).digitChar :: acc, ¬ d = '<' := by
      intro d hd
      rcases List.mem_cons.mp hd with h1 | h1
      · rw [h1]; exact digitChar_ne_lt _
      · exact hacc d h1
    by_cases h : n / b = 0
    · rw [if_pos h] at hc
      exact hacc2 c hc
    · rw [if_neg h] at hc
      exact ih (n / b) ((n % b).digitChar :: acc) hacc2 c hc

theorem natDigits_ne_lt (n : Nat) : ∀ c ∈ natDigits n, ¬ c = '<' := by
  have he : natDigits n = Nat.toDigitsCore 10 (n + 1) n [] := rfl
  rw [he]
  exact toDigitsCore_ne_lt 10 (n + 1) n [] (by simp)

theorem intToString_ne_lt (n : Int) : ∀ c ∈ (toString n).data, ¬ c = '<' := by
  cases n with
  | ofNat m =>
    have he : (toString (Int.ofNat m)).data = natDigits m := rfl
    rw [he]
    exact natDigits_ne_lt m
  | negSucc m =>
    have he : (toString (Int.negSucc m)).data = '-' :: natDigits (m + 1) := rfl
    rw [he]
    intro c hc
    rcases List.mem_cons.mp hc with h | h
    · rw [h]; decide
    · exact natDigits_ne_lt (m + 1) c h

theorem padZeros_ne_lt (l : List Char) (k : Nat) (hl : ∀ c ∈ l, ¬ c = '<') :
    ∀ c ∈ padZeros l k, ¬ c = '<' := by
  intro c hc
  rcases List.mem_append.mp hc with h | h
  · rw [List.eq_of_mem_replicate h]; decide
  · exact hl c h

theorem formatQnn_ne_lt (q : ℚ) : ∀ c ∈ formatQnn q, ¬ c = '<' := by
  cases hk : findK q.den 128 0 with
  | none =>
    simp only [formatQnn, hk]
    intro c hc
    rcases List.mem_append.mp hc with h | h
    · exact natDigits_ne_lt _ c h
    · rcases List.mem_cons.mp h with h1 | h1
      · rw [h1]; decide
      · exact natDigits_ne_lt _ c h1
  | some k =>
    simp only [formatQnn, hk]
    by_cases h0 : k = 0
    · rw [if_pos h0]
      exact fun c hc => natDigits_ne_lt _ c hc
    · rw [if_neg h0]
      intro c hc
      rcases List.mem_append.mp hc with h | h
      · exact natDigits_ne_lt _ c h
      · rcases List.mem_cons.mp h with h1 | h1
        · rw [h1]; decide
        · exact padZeros_ne_lt _ _ (natDigits_ne_lt _) c h1

theorem formatQ_ne_lt (q : ℚ) : ∀ c ∈ formatQ q, ¬ c = '<' := by
  rw [formatQ]
  by_cases hq : q < 0
  · rw [if_pos hq]
    intro c hc
    rcases List.mem_cons.mp hc with h | h
    · rw [h]; decide
    · exact formatQnn_ne_lt _ c h
  · rw [if_neg hq]
    exact formatQnn_ne_lt q

theorem runsSplit_subset (p : Char → Bool) :
    ∀ (l r : List Char), r ∈ runsSplit p l → ∀ c ∈ r, c ∈ l := by
  intro l
  induction l with
  | nil =>
    intro r hr c hc
    rw [runsSplit] at hr
    rcases List.mem_cons.mp hr with h | h
    · rw [h] at hc; exact absurd hc (List.not_mem_nil c)
    · exact absurd h (List.not_mem_nil r)
  | cons a l ih =>
    intro r hr c hc
    rw [runsSplit] at hr
    by_cases hp : p a
    · rw [if_pos hp] at hr
      rcases List.mem_cons.mp hr with h | h
      · rw [h] at hc; exact absurd hc (List.not_mem_nil c)
      · exact List.mem_cons_of_mem a (ih r h c hc)
    · rw [if_neg hp] at hr
      obtain ⟨h0, t0, ht0⟩ := runsSplit_cons_ex p l
      rw [ht0] at hr
      rcases List.mem_cons.mp hr with h | h
      · rw [h] at hc
        rcases List.mem_cons.mp hc with h1 | h1
        · rw [h1]; exact List.mem_cons_self a l
        · exact List.mem_cons_of_mem a
            (ih h0 (by rw [ht0]; exact List.mem_cons_self h0 t0) c h1)
      · exact List.mem_cons_of_mem a
          (ih r (by rw [ht0]; exact List.mem_cons_of_mem h0 h) c hc)

theorem splitWS_subset (l r : List Char) (hr : r ∈ splitWS l) :
    ∀ c ∈ r, c ∈ l := by
  rw [splitWS] at hr
  exact runsSplit_subset isWS l r (List.mem_of_mem_filter hr)

theorem splitWS_getD_subset (l : List Char) (i : Nat) :
    ∀ c ∈ (splitWS l).getD i [], c ∈ l := by
  rw [List.getD_eq_getElem?_getD]
  cases h : (splitWS l)[i]? with
  | none => simp
  | some r =>
    simp only [Option.getD_some]
    exact splitWS_subset l r (List.getElem?_mem h)

theorem rewriteAttrStep_ne_lt (nh : Int) (kv kv' : List Char × List Char)
    (h : rewriteAttrStep nh kv = some kv')
    (hkv : (∀ c ∈ kv.1, ¬ c = '<') ∧ (∀ c ∈ kv.2, ¬ c = '<')) :
    (∀ c ∈ kv'.1, ¬ c = '<') ∧ (∀ c ∈ kv'.2, ¬ c = '<') := by
  rw [rewriteAttrStep] at h
  by_cases h1 : kv.1 = heightKey
  · rw [if_pos h1] at h
    exact absurd h (by simp)
  · rw [if_neg h1] at h
    by_cases h2 : kv.1 = viewBoxKey
    · rw [if_pos h2] at h
      by_cases h3 : (splitWS kv.2).length = 4
      · rw [if_pos h3] at h
        injection h with h
        rw [← h]
        constructor
        · have hvb : ∀ ch ∈ ("viewBox").data, ¬ ch = '<' := by decide
          exact fun c hc => hvb c hc
        · intro c hc
          rcases List.mem_append.mp hc with ha | ha
          · rcases List.mem_append.mp ha with hb | hb
            · rcases List.mem_append.mp hb with hd | hd
              · exact hkv.2 c (splitWS_getD_subset kv.2 0 c hd)
              · rcases List.mem_cons.mp hd with he | he
                · rw [he]; decide
                · exact hkv.2 c (splitWS_getD_subset kv.2 1 c he)
            · rcases List.mem_cons.mp hb with he | he
              · rw [he]; decide
              · exact hkv.2 c (splitWS_getD_subset kv.2 2 c he)
          · rcases List.mem_cons.mp ha with he | he
            · rw [he]; decide
            · exact intToString_ne_lt nh c he
      · rw [if_neg h3] at h
        injection h with h
        rw [← h]
        exact hkv
    · rw [if_neg h2] at h
      injection h with h
      rw [← h]
      exact hkv

theorem rewriteSvgAttrs_ne_lt (attrs : List (List Char × List Char)) (nh : Int)
    (h : ∀ kv ∈ attrs, (∀ c ∈ kv.1, ¬ c = '<') ∧ (∀ c ∈ kv.2, ¬ c = '<')) :
    ∀ kv ∈ rewriteSvgAttrs attrs nh,
      (∀ c ∈ kv.1, ¬ c = '<') ∧ (∀ c ∈ kv.2, ¬ c = '<') := by
  intro kv hkv
  rw [rewriteSvgAttrs] at hkv
  rcases List.mem_append.mp hkv with hm | hm
  · obtain ⟨a, ha, hstep⟩ := List.mem_filterMap.mp hm
    exact rewriteAttrStep_ne_lt nh a kv hstep (h a ha)
  · rcases List.mem_cons.mp hm with he | he
    · rw [he]
      constructor
      · have hht : ∀ ch ∈ ("height").data, ¬ ch = '<' := by decide
        exact fun c hc => hht c hc
      · exact intToString_ne_lt nh
    · exact absurd he (List.not_mem_nil kv)

theorem serializeAttrs_ne_lt (l : List (List Char × List Char))
    (h : ∀ kv ∈ l, (∀ c ∈ kv.1, ¬ c = '<') ∧ (∀ c ∈ kv.2, ¬ c = '<')) :
    ∀ c ∈ serializeAttrs l, ¬ c = '<' := by
  induction l with
  | nil => intro c hc; exact absurd hc (List.not_mem_nil c)
  | cons kv rest ih =>
    intro c hc
    obtain ⟨k, v⟩ := kv
    rw [serializeAttrs] at hc
    simp only [List.mem_append, List.mem_cons] at hc
    have hh := h (k, v) (List.mem_cons_self _ rest)
    rcases hc with ((h1 | h1) | h1 | h1 | h1) | h1 | h1
    · rw [h1]; decide
    · exact hh.1 c h1
    · rw [h1]; decide
    · rw [h1]; decide
    · exact hh.2 c h1
    · rw [h1]; decide
    · exact ih (fun kv2 hkv2 => h kv2 (List.mem_cons_of_mem _ hkv2)) c h1

theorem parseAttrsAux_subset : ∀ (fuel : Nat) (s : List Char)
    (kv : List Char × List Char), kv ∈ parseAttrsAux fuel s →
    (∀ c ∈ kv.1, c ∈ s) ∧ (∀ c ∈ kv.2, c ∈ s) := by
  intro fuel
  induction fuel with
  | zero =>
    intro s kv hkv
    rw [parseAttrsAux] at hkv
    exact absurd hkv (List.not_mem_nil kv)
  | succ fuel ih =>
    intro s kv hkv
    rw [parseAttrsAux] at hkv
    simp only [] at hkv
    have hs1 : s.dropWhile isWS ⊆ s := (List.dropWhile_sublist isWS).subset
    split at hkv
    · exact absurd hkv (List.not_mem_nil kv)
    · split at hkv
      · exact absurd hkv (List.not_mem_nil kv)
      · split at hkv
        · split at hkv
          · split at hkv
            · split at hkv
              · rename_i s1 hnil hkey x2 s3 heq2 x1 q s5 heq1 hq x0 w s7 heq0
                have h3sub : s3 ⊆ s := by
                  have ha : ('=' :: s3) ⊆ List.drop
                      (List.takeWhile (fun c => decide (¬c = '=' ∧ ¬isWS c = true))
                        (List.dropWhile isWS s)).length (List.dropWhile isWS s) := by
                    rw [← heq2]
                    exact (List.dropWhile_sublist isWS).subset
                  have hb : List.drop
                      (List.takeWhile (fun c => decide (¬c = '=' ∧ ¬isWS c = true))
                        (List.dropWhile isWS s)).length (List.dropWhile isWS s) ⊆ s :=
                    (List.drop_subset _ _).trans hs1
                  exact (List.subset_cons_self '=' s3).trans (ha.trans hb)
                have h5sub : s5 ⊆ s := by
                  have ha : (q :: s5) ⊆ s3 := by
                    rw [← heq1]
                    exact (List.dropWhile_sublist isWS).subset
                  exact (List.subset_cons_self q s5).trans (ha.trans h3sub)
                have h7sub : s7 ⊆ s := by
                  have ha : (w :: s7) ⊆ s5 := by
                    rw [← heq0]
                    exact List.drop_subset _ _
                  exact ((List.subset_cons_self w s7).trans ha).trans h5sub
                rcases List.mem_cons.mp hkv with he | he
                · rw [he]
                  constructor
                  · intro c hc
                    exact hs1 ((List.takeWhile_sublist _).subset hc)
                  · intro c hc
                    exact h5sub ((List.takeWhile_sublist _).subset hc)
                · obtain ⟨ih1, ih2⟩ := ih s7 kv he
                  exact ⟨fun c hc => h7sub (ih1 c hc), fun c hc => h7sub (ih2 c hc)⟩
              · exact absurd hkv (List.not_mem_nil kv)
            · exact absurd hkv (List.not_mem_nil kv)
          · exact absurd hkv (List.not_mem_nil kv)
        · exact absurd hkv (List.not_mem_nil kv)

theorem drop_after_marker (A z : List Char) (c : Char) :
    (A ++ c :: z).drop (A.length + 1) = z := by
  have h1 : A ++ c :: z = (A ++ [c]) ++ z := by simp
  have h2 : A.length + 1 = (A ++ [c]).length := by simp
  rw [h1, h2, List.drop_left]

theorem readEvents_nil (fuel : Nat) : readEvents fuel [] = [] := by
  cases fuel <;> rfl

theorem readEvents_svg_start (fuel : Nat) (ra z : List Char)
    (hgt : ('>' : Char) ∉ ra)
    (hlast : ¬ ('s' :: 'v' :: 'g' :: ra).getLast? = some '/') :
    readEvents (fuel + 1) ('<' :: 's' :: 'v' :: 'g' :: (ra ++ '>' :: z)) =
      XEvent.startE ('s' :: 'v' :: 'g' :: ra) :: readEvents fuel z := by
  have hnotin : ('>' : Char) ∉ ('<' :: 's' :: 'v' :: 'g' :: ra) := by
    intro hm
    rcases List.mem_cons.mp hm with h | h
    · exact absurd h (by decide)
    · rcases List.mem_cons.mp h with h | h
      · exact absurd h (by decide)
      · rcases List.mem_cons.mp h with h | h
        · exact absurd h (by decide)
        · rcases List.mem_cons.mp h with h | h
          · exact absurd h (by decide)
          · exact hgt h
  have hfg : findIn [('>' : Char)] ('<' :: 's' :: 'v' :: 'g' :: (ra ++ '>' :: z)) =
      some (ra.length + 4) :=
    findIn_single_first '>' ('<' :: 's' :: 'v' :: 'g' :: ra) z hnotin
  have hfl : findIn [('<' : Char)] ('<' :: 's' :: 'v' :: 'g' :: (ra ++ '>' :: z)) =
      some 0 := by
    rw [findIn, if_pos (by rw [isPrefixOf_single]; exact beq_self_eq_true '<')]
  simp only [readEvents, hfl, hfg]
  have e0 : ra.length + 4 - 1 = ra.length + 3 := by omega
  rw [e0]
  simp only [List.drop_succ_cons, List.drop_zero, List.take_succ_cons, List.take_left]
  rw [drop_after_marker ra z '>']
  show (if ('s' :: 'v' :: 'g' :: ra).getLast? = some '/' then
      XEvent.emptyE ('s' :: 'v' :: 'g' :: ra).dropLast
    else XEvent.startE ('s' :: 'v' :: 'g' :: ra)) :: readEvents fuel z = _
  rw [if_neg hlast]

theorem readEvents_path_tag (fuel : Nat) (p : PathTag) (z : List Char)
    (hmidc : ∀ c ∈ p.mid, ¬ c = '>') (hdc : ∀ c ∈ p.dContent, ¬ c = '>')
    (htailc : ∀ c ∈ p.tail, ¬ c = '>') :
    readEvents (fuel + 1) (serializePath p ++ z) =
      XEvent.emptyE (innerOf p) :: readEvents fuel z := by
  have hnotin : ('>' : Char) ∉ ('<' :: (innerOf p ++ [('/' : Char)])) := by
    intro hm
    rcases List.mem_cons.mp hm with h | h
    · exact absurd h (by decide)
    · rcases List.mem_append.mp h with h | h
      · rw [innerOf] at h
        rcases List.mem_cons.mp h with h | h
        · exact absurd h (by decide)
        · rcases List.mem_cons.mp h with h | h
          · exact absurd h (by decide)
          · rcases List.mem_cons.mp h with h | h
            · exact absurd h (by decide)
            · rcases List.mem_cons.mp h with h | h
              · exact absurd h (by decide)
              · rcases List.mem_append.mp h with h | h
                · exact hmidc _ h rfl
                · rcases List.mem_cons.mp h with h | h
                  · exact absurd h (by decide)
                  · rcases List.mem_cons.mp h with h | h
                    · exact absurd h (by decide)
                    · rcases List.mem_cons.mp h with h | h
                      · exact absurd h (by decide)
                      · rcases List.mem_cons.mp h with h | h
                        · exact absurd h (by decide)
                        · rcases List.mem_append.mp h with h | h
                          · exact hdc _ h rfl
                          · rcases List.mem_cons.mp h with h | h
                            · exact absurd h (by decide)
                            · exact htailc _ h rfl
      · rcases List.mem_cons.mp h with h | h
        · exact absurd h (by decide)
        · exact absurd h (List.not_mem_nil _)
  have hshape : serializePath p ++ z =
      '<' :: ((innerOf p ++ [('/' : Char)]) ++ '>' :: z) := by
    simp [serializePath, List.append_assoc]
  have hfg : findIn [('>' : Char)]
      ('<' :: ((innerOf p ++ [('/' : Char)]) ++ '>' :: z)) =
      some ((innerOf p ++ [('/' : Char)]).length + 1) := by
    have h := findIn_single_first '>' ('<' :: (innerOf p ++ [('/' : Char)])) z hnotin
    rw [List.cons_append] at h
    exact h
  have hfl : findIn [('<' : Char)]
      ('<' :: ((innerOf p ++ [('/' : Char)]) ++ '>' :: z)) = some 0 := by
    rw [findIn, if_pos (by rw [isPrefixOf_single]; exact beq_self_eq_true '<')]
  rw [hshape]
  simp only [readEvents, hfl, hfg]
  have e0 : (innerOf p ++ [('/' : Char)]).length + 1 - 1 =
      (innerOf p ++ [('/' : Char)]).length := by omega
  rw [e0]
  simp only [List.drop_succ_cons, List.drop_zero, List.take_left]
  rw [drop_after_marker (innerOf p ++ [('/' : Char)]) z '>']
  show (if (innerOf p ++ [('/' : Char)]).getLast? = some '/' then
      XEvent.emptyE (innerOf p ++ [('/' : Char)]).dropLast
    else XEvent.startE (innerOf p ++ [('/' : Char)])) :: readEvents fuel z = _
  rw [if_pos (List.getLast?_concat _), List.dropLast_concat]

theorem readEvents_end_svg (fuel : Nat) :
    readEvents (fuel + 1) (("</svg>").data) = [XEvent.endE (("svg").data)] := by
  show XEvent.endE (("svg").data) :: readEvents fuel [] = _
  rw [readEvents_nil]

theorem readEvents_paths : ∀ (ps : List PathTag) (fuel : Nat),
    (∀ p ∈ ps, pathOkP p) →
    (concatPaths ps (("</svg>").data)).length ≤ fuel →
    readEvents fuel (concatPaths ps (("</svg>").data)) =
      ps.map (fun p => XEvent.emptyE (innerOf p)) ++ [XEvent.endE (("svg").data)] := by
  intro ps
  induction ps with
  | nil =>
    intro fuel _ hf
    obtain ⟨f, rfl⟩ : ∃ f, fuel = f + 1 := ⟨fuel - 1, by
      rw [concatPaths] at hf
      have h6 : (("</svg>").data).length = 6 := rfl
      omega⟩
    rw [concatPaths, readEvents_end_svg]
    rfl
  | cons p rest ih =>
    intro fuel hok hf
    have hlen : 0 < (serializePath p).length := by simp [serializePath]
    obtain ⟨f, rfl⟩ : ∃ f, fuel = f + 1 := ⟨fuel - 1, by
      rw [concatPaths, List.length_append] at hf
      omega⟩
    obtain ⟨hmidc, hdc, htailc, -⟩ := hok p (List.mem_cons_self p rest)
    rw [concatPaths, readEvents_path_tag f p _
      (fun c hc => (hmidc c hc).2) (fun c hc => (hdc c hc).2.1)
      (fun c hc => (htailc c hc).2),
      ih f (fun q hq => hok q (List.mem_cons_of_mem p hq))
        (by rw [concatPaths, List.length_append] at hf; omega)]
    rfl

theorem serializeList_paths (ps : List PathTag) :
    serializeList (ps.map (fun p => XEvent.emptyE (innerOf p))) =
      concatPaths ps [] := by
  induction ps with
  | nil => rfl
  | cons p rest ih =>
    rw [concatPaths]
    show serializeEv (XEvent.emptyE (innerOf p)) ++
      serializeList (rest.map (fun p => XEvent.emptyE (innerOf p))) = _
    rw [ih]
    rfl

/-! ## Claim theorems -/

/-- Claim C7: the `d`-attribute tokenizer produces exactly the runs of
digit/minus/dot characters parsed as numbers (every other character
terminates the pending token); pairs of consecutive numbers contribute their
second component, transformed as `b*x + d*y + f` under an active matrix and
raw otherwise; and on `<path d="M 10 20 L 30 40 Z"/>` the collected flat
list is exactly `[20, 40]`. -/
theorem claim_C7_tokenizer :
    (∀ content : List Char,
      dTokens content = (runsSplit (fun c => !isNumChar c) content).filterMap parseRatL)
    ∧ (∀ a b c d e f x y rest,
        pairYs (some (a, b, c, d, e, f)) (x :: y :: rest) =
          (b * x + d * y + f) :: pairYs (some (a, b, c, d, e, f)) rest)
    ∧ (∀ x y rest, pairYs none (x :: y :: rest) = y :: pairYs none rest)
    ∧ extract_y_coordinates ("<path d=\"M 10 20 L 30 40 Z\"/>") = [20, 40] := by
  refine ⟨?_, ?_, ?_, ?_⟩
  · intro content
    have := dToksAux_split content []
    obtain ⟨h, t, ht⟩ := runsSplit_cons_ex (fun c => !isNumChar c) content
    rw [dTokens, this, ht]
    simp [optToList_filterMap]
  · intro a b c d e f x y rest
    simp [pairYs, qadd_eq, qmul_eq]
  · intro x y rest; rfl
  · decide

/-- Claim C2 (code bug): on a document whose only `<path>` element carries no
`transform` attribute but is followed by a later element carrying
`transform="matrix(1, 0, 0, 2, 0, 0)"`, the scanner applies the matrix of that
later element to the coordinates of the path — the pair `(1, 2)` yields
`0*1 + 2*2 + 0 = 4` — whereas the same path alone contributes its raw `2`. -/
theorem claim_C2_cross_element_matrix :
    extract_y_coordinates
        ("<path d=\"M 1 2\"/><g transform=\"matrix(1, 0, 0, 2, 0, 0)\"/>") = [4]
    ∧ extract_y_coordinates ("<path d=\"M 1 2\"/>") = [2] := by
  constructor <;> decide

/-- Claim C10: two configurations differing only in
`enable_formula_numbering` produce identical native call traces and identical
results, for both `render` and `render_to_svg_with_metrics` — the flag is
never forwarded to the native `parse_render` call. -/
theorem claim_C10_numbering_no_effect (env : ShimEnv) (latex : String)
    (cfg : RenderConfig) (b : Bool) :
    renderM env latex { cfg with enable_formula_numbering := b } =
      renderM env latex cfg
    ∧ renderWithMetricsM env latex { cfg with enable_formula_numbering := b } =
      renderWithMetricsM env latex cfg :=
  ⟨rfl, rfl⟩


theorem heightKey_ne_viewBoxKey : heightKey ≠ viewBoxKey := by decide

theorem viewBoxKey_ne_heightKey : ¬ viewBoxKey = heightKey := by decide

theorem rewriteAttrStep_key (nh : Int) (kv kv' : List Char × List Char)
    (h : rewriteAttrStep nh kv = some kv') :
    ¬ kv'.1 = heightKey ∧ (¬ kv.1 = heightKey → ¬ kv.1 = viewBoxKey → kv' = kv) := by
  by_cases h1 : kv.1 = heightKey
  · simp [rewriteAttrStep, h1] at h
  · by_cases h2 : kv.1 = viewBoxKey
    · by_cases h3 : (splitWS kv.2).length = 4
      · simp [rewriteAttrStep, h1, h2, h3, viewBoxKey_ne_heightKey] at h
        refine ⟨?_, fun _ hvb => absurd h2 hvb⟩
        rw [← h]
        exact viewBoxKey_ne_heightKey
      · simp [rewriteAttrStep, h1, h2, h3, viewBoxKey_ne_heightKey] at h
        refine ⟨?_, fun _ hvb => absurd h2 hvb⟩
        rw [← h, h2]
        exact viewBoxKey_ne_heightKey
    · simp [rewriteAttrStep, h1, h2] at h
      exact ⟨by rw [← h]; exact h1, fun _ _ => h.symm⟩

theorem height_notin_rewrite_filterMap (attrs : List (List Char × List Char))
    (nh : Int) (v : List Char) :
    (heightKey, v) ∉ attrs.filterMap (rewriteAttrStep nh) := by
  intro hmem
  obtain ⟨kv, _, hf⟩ := List.mem_filterMap.1 hmem
  exact (rewriteAttrStep_key nh kv _ hf).1 rfl

theorem other_mem_rewrite_filterMap (attrs : List (List Char × List Char))
    (nh : Int) (k v : List Char) (hk1 : ¬ k = heightKey) (hk2 : ¬ k = viewBoxKey) :
    ((k, v) ∈ attrs.filterMap (rewriteAttrStep nh)) ↔ (k, v) ∈ attrs := by
  induction attrs with
  | nil => simp
  | cons kv rest ih =>
    obtain ⟨k', v'⟩ := kv
    by_cases h1 : k' = heightKey
    · subst h1
      rw [List.filterMap_cons]
      have hs : rewriteAttrStep nh (heightKey, v') = none := by simp [rewriteAttrStep]
      rw [hs, ih]
      simp [Prod.mk.injEq, hk1]
    · by_cases h2 : k' = viewBoxKey
      · subst h2
        rw [List.filterMap_cons]
        by_cases h3 : (splitWS v').length = 4
        · have hs : rewriteAttrStep nh (viewBoxKey, v') = some (viewBoxKey,
              (splitWS v').getD 0 [] ++ (' ' :: (splitWS v').getD 1 []) ++
                (' ' :: (splitWS v').getD 2 []) ++ (' ' :: (toString nh).data)) := by
            simp [rewriteAttrStep, h3, viewBoxKey_ne_heightKey]
          rw [hs]
          simp [List.mem_cons, ih, Prod.mk.injEq, hk2]
        · have hs : rewriteAttrStep nh (viewBoxKey, v') = some (viewBoxKey, v') := by
            simp [rewriteAttrStep, h3, viewBoxKey_ne_heightKey]
          rw [hs]
          simp [List.mem_cons, ih, Prod.mk.injEq, hk2]
      · rw [List.filterMap_cons]
        have hs : rewriteAttrStep nh (k', v') = some (k', v') := by
          simp [rewriteAttrStep, h1, h2]
        rw [hs]
        simp only [List.mem_cons, ih]

/-- Claim C5: the root-element rewrite drops any `height` attribute and
appends `height="new_height"` (so `height` carries exactly the new value);
a four-component `viewBox` keeps its first three components and gets
`new_height` as the fourth; a `viewBox` without exactly four components and
every attribute under any other key pass through with value unmodified. -/
theorem claim_C5_attr_rewrite (attrs : List (List Char × List Char)) (nh : Int) :
    ((heightKey, (toString nh).data) ∈ rewriteSvgAttrs attrs nh)
    ∧ (∀ v, (heightKey, v) ∈ rewriteSvgAttrs attrs nh → v = (toString nh).data)
    ∧ (∀ k v, ¬ k = heightKey → ¬ k = viewBoxKey →
        ((k, v) ∈ rewriteSvgAttrs attrs nh ↔ (k, v) ∈ attrs))
    ∧ (∀ v p0 p1 p2 p3, (viewBoxKey, v) ∈ attrs → splitWS v = [p0, p1, p2, p3] →
        (viewBoxKey, p0 ++ (' ' :: p1) ++ (' ' :: p2) ++ (' ' :: (toString nh).data)) ∈
          rewriteSvgAttrs attrs nh)
    ∧ (∀ v, (viewBoxKey, v) ∈ attrs → ¬ (splitWS v).length = 4 →
        (viewBoxKey, v) ∈ rewriteSvgAttrs attrs nh) := by
  refine ⟨?_, ?_, ?_, ?_, ?_⟩
  · exact List.mem_append_right _ (List.mem_singleton.2 rfl)
  · intro v hv
    rcases List.mem_append.1 hv with hl | hr
    · exact absurd hl (height_notin_rewrite_filterMap attrs nh v)
    · exact congrArg Prod.snd (List.mem_singleton.1 hr)
  · intro k v hk1 hk2
    rw [rewriteSvgAttrs, List.mem_append, other_mem_rewrite_filterMap attrs nh k v hk1 hk2]
    simp [Prod.mk.injEq, hk1]
  · intro v p0 p1 p2 p3 hmem hsplit
    refine List.mem_append_left _ (List.mem_filterMap.2 ⟨(viewBoxKey, v), hmem, ?_⟩)
    simp [rewriteAttrStep, viewBoxKey_ne_heightKey, hsplit]
  · intro v hmem hlen
    refine List.mem_append_left _ (List.mem_filterMap.2 ⟨(viewBoxKey, v), hmem, ?_⟩)
    simp [rewriteAttrStep, viewBoxKey_ne_heightKey, hlen]

/-- Witness for C5 on a typical root attribute list: the pass-through
`width`, the rewritten `viewBox`, and the fresh `height`. -/
theorem claim_C5_witness :
    ((heightKey, (toString (40 : Int)).data) ∈ rewriteSvgAttrs demoAttrs 40)
    ∧ ((("width").data, ("188").data) ∈ rewriteSvgAttrs demoAttrs 40)
    ∧ ((viewBoxKey, ("0 0 188 40").data) ∈ rewriteSvgAttrs demoAttrs 40) := by
  refine ⟨(claim_C5_attr_rewrite demoAttrs 40).1, ?_, ?_⟩
  · exact ((claim_C5_attr_rewrite demoAttrs 40).2.2.1 (("width").data) (("188").data)
      (by decide) (by decide)).2 (by decide)
  · have h := (claim_C5_attr_rewrite demoAttrs 40).2.2.2.1 (("0 0 188 39").data)
      (("0").data) (("0").data) (("188").data) (("39").data) (by decide) (by decide)
    have he : (("0").data ++ (' ' :: ("0").data) ++ (' ' :: ("188").data) ++
        (' ' :: (toString (40 : Int)).data)) = ("0 0 188 40").data := by decide
    rw [he] at h
    exact h

/-- Claim C6: `render` yields `ParseRenderFailed` iff the native parse step
returns a null handle; `EmptyOutput` iff (parse having succeeded) the
extraction returns a null pointer or zero length; and `InvalidUtf8`
wrapping the decode error `k` iff (parse and extraction having succeeded)
the extracted bytes fail UTF-8 validation with `valid_up_to = k`. -/
theorem claim_C6_error_taxonomy (env : ShimEnv) (latex : String) (cfg : RenderConfig) :
    ((renderM env latex cfg).1 = some (Except.error RenderError.parseRenderFailed) ↔
      env.parse_ok (renderArgs latex cfg) = false)
    ∧ ((renderM env latex cfg).1 = some (Except.error RenderError.emptyOutput) ↔
      env.parse_ok (renderArgs latex cfg) = true ∧
        (env.svg_buf = none ∨ env.svg_buf = some []))
    ∧ (∀ k, (renderM env latex cfg).1 = some (Except.error (RenderError.invalidUtf8 k)) ↔
      env.parse_ok (renderArgs latex cfg) = true ∧
        ∃ bs, env.svg_buf = some bs ∧ ¬ bs = [] ∧ utf8Decode bs = Except.error k) := by
  cases hp : env.parse_ok (renderArgs latex cfg) with
  | false => simp [renderM, hp]
  | true =>
    cases hb : env.svg_buf with
    | none => simp [renderM, hp, hb]
    | some bs =>
      by_cases hlen : bs.length = 0
      · have hnil : bs = [] := List.length_eq_zero.mp hlen
        subst hnil
        simp [renderM, hp, hb]
      · have hne : ¬ bs = [] := fun hc => hlen (by rw [hc]; rfl)
        cases hu : utf8Decode bs with
        | error k0 => simp [renderM, hp, hb, hlen, hu, hne, eq_comm]
        | ok cs =>
          cases hadj : adjust_svg_height_and_center (add_dpi_to_svg (String.mk cs) cfg.dpi) with
          | none => simp [renderM, hp, hb, hlen, hu, hadj, hne]
          | some out => simp [renderM, hp, hb, hlen, hu, hadj, hne]

/-- Claim C1 (code bug): with a non-null render handle and an invalid UTF-8
SVG buffer, `render` returns `InvalidUtf8` without having issued
`delete_render` or `free_buffer`; likewise `render_to_svg_with_metrics`
returns `ParseJsonFailed` without having issued them — the `?` early returns
skip the cleanup the claim requires on every exit path. -/
theorem claim_C1_missing_cleanup :
    ((renderM envLeakDemo ("x") RenderConfig.default).1 =
        some (Except.error (RenderError.invalidUtf8 0))
      ∧ ¬ NativeCall.deleteRender ∈ (renderM envLeakDemo ("x") RenderConfig.default).2
      ∧ ¬ NativeCall.freeBuffer ∈ (renderM envLeakDemo ("x") RenderConfig.default).2)
    ∧ ((renderWithMetricsM envLeakDemo ("x") RenderConfig.default).1 =
        some (Except.error (RenderError.parseJsonFailed ("bad json")))
      ∧ ¬ NativeCall.deleteRender ∈
          (renderWithMetricsM envLeakDemo ("x") RenderConfig.default).2
      ∧ ¬ NativeCall.freeBuffer ∈
          (renderWithMetricsM envLeakDemo ("x") RenderConfig.default).2) := by
  decide

/-- Claim C3 counterexample: on `<svg>t<path d="M 1 5"/></svg>` the text
child `t` is written before the group opens — the output contains
`>t<g transform=...` and not `<g transform=...>t` — so not every direct child
appears inside the group with the group opening before the first child. -/
theorem claim_C3_counterexample :
    adjust_svg_height_and_center c3input = some c3output
    ∧ hasSub c3output (">t<g transform=\"translate(0, 0)\">") = true
    ∧ hasSub c3output ("<g transform=\"translate(0, 0)\">t") = false := by
  decide

/-- Claim C4: empty extraction or a maximum below the 0.02 tolerance leaves
the input unchanged; otherwise the new declared height is `ceil(max_y)` (as a
saturating `i32` cast) and the group translation is
`(new_height - max_y) / 2`; on the spec document, whose maximum extracted Y
is exactly 39.121094, the output declares `height="40"` and the translation
lies in `[0, 1/2)`. -/
theorem claim_C4_height_adjustment :
    (∀ s : String, extract_y_coordinates s = [] →
      adjust_svg_height_and_center s = some s)
    ∧ (∀ s : String, maxQ (extract_y_coordinates s) < 1 / 50 →
      adjust_svg_height_and_center s = some s)
    ∧ (∀ s : String,
        adjustNewHeight s = clampI32 (Int.ceil (maxQ (extract_y_coordinates s)))
        ∧ adjustTranslate s =
            ((adjustNewHeight s : ℚ) - maxQ (extract_y_coordinates s)) / 2)
    ∧ (maxQ (extract_y_coordinates c4svg) = (39121094 : ℚ) / 1000000
       ∧ adjust_svg_height_and_center c4svg = some c4out
       ∧ hasSub c4out ("height=\"40\"") = true
       ∧ 0 ≤ adjustTranslate c4svg ∧ adjustTranslate c4svg < 1 / 2) := by
  have hdiv50 : Rat.divInt 1 50 = (1 / 50 : ℚ) := by
    rw [Rat.divInt_eq_div]; norm_num
  refine ⟨?_, ?_, ?_, ?_, ?_, ?_, ?_, ?_⟩
  · intro s h
    simp [adjust_svg_height_and_center, h]
  · intro s h
    by_cases hy : extract_y_coordinates s = []
    · simp [adjust_svg_height_and_center, hy]
    · rw [← hdiv50] at h
      simp [adjust_svg_height_and_center, hy, h]
  · intro s
    constructor
    · rw [adjustNewHeight, qceil_eq]
    · rw [adjustTranslate, qdiv_eq, qsub_eq, castIntQ_eq]
  · have h : maxQ (extract_y_coordinates c4svg) = Rat.divInt 39121094 1000000 := by
      decide
    rw [h, Rat.divInt_eq_div]
    norm_num
  · decide
  · decide
  · have h : adjustTranslate c4svg = Rat.divInt 439453 1000000 := by decide
    rw [h, Rat.divInt_eq_div]
    norm_num
  · have h : adjustTranslate c4svg = Rat.divInt 439453 1000000 := by decide
    rw [h, Rat.divInt_eq_div]
    norm_num

/-- Witness for C4: the two unchanged branches discharged on concrete
inputs (no extracted coordinates; maximum 0.01 below tolerance). -/
theorem claim_C4_witness :
    adjust_svg_height_and_center ("abc") = some ("abc")
    ∧ adjust_svg_height_and_center ("<path d=\"M 1 0.01\"/>") =
        some ("<path d=\"M 1 0.01\"/>") := by
  refine ⟨claim_C4_height_adjustment.1 ("abc") (by decide), ?_⟩
  refine claim_C4_height_adjustment.2.1 ("<path d=\"M 1 0.01\"/>") ?_
  have h : maxQ (extract_y_coordinates ("<path d=\"M 1 0.01\"/>")) = Rat.divInt 1 100 := by
    decide
  rw [h, Rat.divInt_eq_div]
  norm_num

set_option maxRecDepth 20000 in
/-- Claim C8 counterexample: on `c8input` the first pass performs an
adjustment (maximum extracted Y is 39.5) and declares `height="40"`, but the
second pass declares `height="99"` — the rewrite requotes the single-quoted
`cm` attribute, which changes the characters the textual scanner reads after
`d="`, so the second maximum differs from the first. -/
theorem claim_C8_counterexample :
    maxQ (extract_y_coordinates c8input) = Rat.divInt 79 2
    ∧ heightVal ((adjust_svg_height_and_center c8input).getD ("")) = some ("40")
    ∧ heightVal ((adjust_svg_height_and_center
        ((adjust_svg_height_and_center c8input).getD (""))).getD ("")) = some ("99")
    ∧ ¬ (some ("99") = some (("40") : String)) := by
  decide

/-- Claim C9: after a successful JSON parse, `KeyCharMetrics::from_json`
always succeeds — on any value, absent or mistyped fields included, every
field degrades to its default — while a parse error is the only failure; in
contrast the strict top-level decode of `render_to_svg_with_metrics` fails
the whole call when `metrics` is absent or not an object, or when a required
integer field such as `width` is missing or mistyped. -/
theorem claim_C9_lenient_vs_strict :
    (∀ v : Json, ∃ m, KeyCharMetrics_from_json (Except.ok v) = Except.ok m)
    ∧ (∀ e, KeyCharMetrics_from_json (Except.error e) = Except.error e)
    ∧ KeyCharMetrics_from_json (Except.ok (Json.obj [])) =
        Except.ok ⟨[], 0, 0, 0, 0, 0⟩
    ∧ KeyCharMetrics_from_json (Except.ok (Json.obj
        [(("key_char_heights"), Json.str ("x")), (("key_char_count"), Json.bool true),
         (("average_char_height"), Json.null), (("max_char_height"), Json.str ("y")),
         (("min_char_height"), Json.arr []), (("box_tree_height"), Json.bool false)])) =
        Except.ok ⟨[], 0, 0, 0, 0, 0⟩
    ∧ (∀ v : Json, (v.get ("metrics")).bind Json.as_object = none →
        decodeMetricsObj v =
          Except.error (RenderError.parseJsonFailed ("missing metrics field")))
    ∧ (∀ kvs, (lookupKv kvs ("width")).bind Json.as_i64 = none →
        decodeMetricsFields kvs =
          Except.error (RenderError.parseJsonFailed ("missing or invalid width"))) := by
  refine ⟨fun v => ⟨_, rfl⟩, fun e => rfl, ?_, ?_, ?_, ?_⟩
  · rfl
  · rfl
  · intro v h
    simp [decodeMetricsObj, h]
  · intro kvs h
    simp [decodeMetricsFields, h]

/-- Witness for C9: the strict decode failures at concrete values (a payload
with `svg` but no `metrics`; a metrics object missing `width`), and the
lenient decode succeeding on a non-object value. -/
theorem claim_C9_witness :
    decodeMetricsObj (Json.obj [(("svg"), Json.str ("<svg>t</svg>"))]) =
      Except.error (RenderError.parseJsonFailed ("missing metrics field"))
    ∧ decodeMetricsFields [(("height"), Json.intNum 50)] =
      Except.error (RenderError.parseJsonFailed ("missing or invalid width"))
    ∧ ∃ m, KeyCharMetrics_from_json (Except.ok (Json.arr [])) = Except.ok m := by
  refine ⟨?_, ?_, claim_C9_lenient_vs_strict.1 (Json.arr [])⟩
  · exact claim_C9_lenient_vs_strict.2.2.2.2.1 (Json.obj [(("svg"), Json.str ("<svg>t</svg>"))]) rfl
  · exact claim_C9_lenient_vs_strict.2.2.2.2.2 [(("height"), Json.intNum 50)] rfl

theorem adjLoop_passives (nh : Int) (t : ℚ) (pre : List XEvent) :
    ∀ (rest : List XEvent) (insvg g : Bool) (acc : List Char),
      (∀ x ∈ pre, passiveEv x = true) →
      adjLoop nh t (pre ++ rest) insvg g acc =
        adjLoop nh t rest insvg g (acc ++ serializeList pre) := by
  induction pre with
  | nil =>
    intro rest insvg g acc _
    simp [serializeList]
  | cons e pre ih =>
    intro rest insvg g acc h
    have he : passiveEv e = true := h e (List.mem_cons_self e pre)
    have h2 : ∀ x ∈ pre, passiveEv x = true := fun x hx => h x (List.mem_cons_of_mem e hx)
    cases e with
    | text c =>
      rw [List.cons_append]
      show adjLoop nh t (XEvent.text c :: (pre ++ rest)) insvg g acc = _
      rw [adjLoop, ih rest insvg g (acc ++ c) h2]
      simp [serializeList, serializeEv, List.append_assoc]
    | misc r =>
      rw [List.cons_append]
      show adjLoop nh t (XEvent.misc r :: (pre ++ rest)) insvg g acc = _
      rw [adjLoop, ih rest insvg g (acc ++ r) h2]
      simp [serializeList, serializeEv, List.append_assoc]
    | startE i => simp [passiveEv] at he
    | endE i => simp [passiveEv] at he
    | emptyE i => simp [passiveEv] at he
    | bad => simp [passiveEv] at he

theorem adjLoop_mid (nh : Int) (t : ℚ) (mid : List XEvent) :
    ∀ (endInner : List Char) (acc : List Char),
      (∀ x ∈ mid, midOk x = true) → nameOf endInner = ("svg").data →
      adjLoop nh t (mid ++ [XEvent.endE endInner]) true true acc =
        some (acc ++ serializeList mid ++ ("</g>").data ++
          serializeEv (XEvent.endE endInner)) := by
  induction mid with
  | nil =>
    intro endInner acc _ hend
    show adjLoop nh t (XEvent.endE endInner :: []) true true acc = _
    rw [adjLoop]
    simp [hend, serializeList]
  | cons e mid ih =>
    intro endInner acc h hend
    have he : midOk e = true := h e (List.mem_cons_self e mid)
    have h2 : ∀ x ∈ mid, midOk x = true := fun x hx => h x (List.mem_cons_of_mem e hx)
    cases e with
    | text c =>
      rw [List.cons_append]
      show adjLoop nh t (XEvent.text c :: (mid ++ [XEvent.endE endInner])) true true acc = _
      rw [adjLoop, ih endInner (acc ++ c) h2 hend]
      simp [serializeList, serializeEv, List.append_assoc]
    | misc r =>
      rw [List.cons_append]
      show adjLoop nh t (XEvent.misc r :: (mid ++ [XEvent.endE endInner])) true true acc = _
      rw [adjLoop, ih endInner (acc ++ r) h2 hend]
      simp [serializeList, serializeEv, List.append_assoc]
    | startE i =>
      have hi : ¬ nameOf i = ("svg").data := by
        by_contra hc
        simp [midOk, hc] at he
      rw [List.cons_append]
      show adjLoop nh t (XEvent.startE i :: (mid ++ [XEvent.endE endInner])) true true acc = _
      rw [adjLoop]
      simp only [hi, if_false]
      rw [if_neg (by simp), ih endInner _ h2 hend]
      simp [serializeList, List.append_assoc]
    | endE i =>
      have hi : ¬ nameOf i = ("svg").data := by
        by_contra hc
        simp [midOk, hc] at he
      rw [List.cons_append]
      show adjLoop nh t (XEvent.endE i :: (mid ++ [XEvent.endE endInner])) true true acc = _
      rw [adjLoop]
      rw [if_neg (by simp [hi]), ih endInner _ h2 hend]
      simp [serializeList, List.append_assoc]
    | emptyE i =>
      rw [List.cons_append]
      show adjLoop nh t (XEvent.emptyE i :: (mid ++ [XEvent.endE endInner])) true true acc = _
      rw [adjLoop]
      rw [if_neg (by simp), ih endInner _ h2 hend]
      simp [serializeList, List.append_assoc]
    | bad => simp [midOk] at he

/-- Claim C3 amended: for a root `<svg>` whose children are a passive prefix
(text and pass-through events), then a first element child, then arbitrary
non-`svg` events, the loop emits the rewritten root tag, then the passive
prefix VERBATIM AND OUTSIDE THE GROUP, opens the translate group immediately
before the first element child, passes the remaining children through inside
it, and closes the group immediately before `</svg>` — self-closing and
start-tag first children alike. -/
theorem claim_C3_group_wrapping (nh : Int) (t : ℚ) (svgInner : List Char)
    (pre : List XEvent) (e : XEvent) (mid : List XEvent) (endInner : List Char)
    (h0 : nameOf svgInner = ("svg").data)
    (h1 : ∀ x ∈ pre, passiveEv x = true)
    (h2 : firstElemOk e = true)
    (h3 : ∀ x ∈ mid, midOk x = true)
    (h4 : nameOf endInner = ("svg").data) :
    adjLoop nh t
        (XEvent.startE svgInner :: (pre ++ e :: (mid ++ [XEvent.endE endInner])))
        false false [] =
      some (svgStartOut svgInner nh ++ serializeList pre ++ gOpen t ++
        serializeEv e ++ serializeList mid ++ ("</g>").data ++
        serializeEv (XEvent.endE endInner)) := by
  have step1 : adjLoop nh t
      (XEvent.startE svgInner :: (pre ++ e :: (mid ++ [XEvent.endE endInner])))
      false false [] =
      adjLoop nh t (pre ++ e :: (mid ++ [XEvent.endE endInner])) true false
        (svgStartOut svgInner nh) := by
    rw [adjLoop]
    simp [h0]
  rw [step1, adjLoop_passives nh t pre _ true false _ h1]
  cases e with
  | startE i =>
    have hi : ¬ nameOf i = ("svg").data := by
      by_contra hc
      simp [firstElemOk, hc] at h2
    rw [adjLoop]
    simp only [hi, if_false]
    rw [if_pos (by simp)]
    rw [adjLoop_mid nh t mid endInner _ h3 h4]
  | emptyE i =>
    rw [adjLoop]
    rw [if_pos (by simp)]
    rw [adjLoop_mid nh t mid endInner _ h3 h4]
  | text c => simp [firstElemOk] at h2
  | endE i => simp [firstElemOk] at h2
  | misc r => simp [firstElemOk] at h2
  | bad => simp [firstElemOk] at h2

/-- Witness for C3 amended: the event stream of `c3input` — text prefix
`t`, then the self-closing path element — produces the group immediately
before the path, with `t` outside the group. -/
theorem claim_C3_witness :
    adjLoop 5 0
        (XEvent.startE (("svg").data) ::
          ([XEvent.text (("t").data)] ++ XEvent.emptyE (("path d=\"M 1 5\"").data) ::
            ([] ++ [XEvent.endE (("svg").data)]))) false false [] =
      some (svgStartOut (("svg").data) 5 ++ serializeList [XEvent.text (("t").data)] ++
        gOpen 0 ++ serializeEv (XEvent.emptyE (("path d=\"M 1 5\"").data)) ++
        serializeList [] ++ ("</g>").data ++ serializeEv (XEvent.endE (("svg").data))) := by
  exact claim_C3_group_wrapping 5 0 (("svg").data) [XEvent.text (("t").data)]
    (XEvent.emptyE (("path d=\"M 1 5\"").data)) [] (("svg").data)
    (by decide) (by decide) (by decide) (by decide) (by decide)

theorem extract_mk (l : List Char) :
    extract_y_coordinates (String.mk l) = extractS l (l.length + 1) := by
  rw [extract_eq_extractS]

theorem adjustNewHeight_congr (s1 s2 : String)
    (h : extract_y_coordinates s1 = extract_y_coordinates s2) :
    adjustNewHeight s1 = adjustNewHeight s2 := by
  rw [adjustNewHeight, adjustNewHeight, h]

theorem adjustTranslate_congr (s1 s2 : String)
    (h : extract_y_coordinates s1 = extract_y_coordinates s2) :
    adjustTranslate s1 = adjustTranslate s2 := by
  rw [adjustTranslate, adjustTranslate, adjustNewHeight, adjustNewHeight, h]

theorem adjLoop_renderer (nh : Int) (t : ℚ) (svgInner : List Char)
    (p0 : PathTag) (ps' : List PathTag)
    (hname : nameOf svgInner = ("svg").data) :
    adjLoop nh t
      (XEvent.startE svgInner ::
        ((p0 :: ps').map (fun p => XEvent.emptyE (innerOf p)) ++
          [XEvent.endE (("svg").data)])) false false [] =
      some (svgStartOut svgInner nh ++
        (gOpen t ++ concatPaths (p0 :: ps') (("</g></svg>").data))) := by
  have step1 : adjLoop nh t
      (XEvent.startE svgInner ::
        ((p0 :: ps').map (fun p => XEvent.emptyE (innerOf p)) ++
          [XEvent.endE (("svg").data)])) false false [] =
      adjLoop nh t
        ((p0 :: ps').map (fun p => XEvent.emptyE (innerOf p)) ++
          [XEvent.endE (("svg").data)]) true false (svgStartOut svgInner nh) := by
    rw [adjLoop]
    simp [hname]
  rw [step1, List.map_cons, List.cons_append, adjLoop, if_pos (by simp),
    adjLoop_mid nh t (ps'.map (fun p => XEvent.emptyE (innerOf p))) (("svg").data) _
      (by
        intro x hx
        obtain ⟨q, hq, rfl⟩ := List.mem_map.mp hx
        rfl)
      (by decide),
    serializeList_paths]
  have h1 : serializeEv (XEvent.emptyE (innerOf p0)) = serializePath p0 := rfl
  have h2 : serializeEv (XEvent.endE (("svg").data)) = ("</svg>").data := rfl
  have h3 : ("</g></svg>").data = ("</g>").data ++ ("</svg>").data := rfl
  rw [h1, h2, h3, concatPaths, concatPaths_append ps']
  simp [List.append_assoc]
  rw [← concatPaths_append]

theorem renderer_extract_stable (rootAttrs : List Char) (ps : List PathTag)
    (hra : ∀ c ∈ rootAttrs, ¬ c = '<' ∧ ¬ c = '>')
    (hlast : ¬ ('s' :: 'v' :: 'g' :: rootAttrs).getLast? = some '/')
    (hname : nameOf ('s' :: 'v' :: 'g' :: rootAttrs) = ("svg").data)
    (hpaths : ∀ p ∈ ps, pathOkP p)
    (hy : ¬ extract_y_coordinates (rendererDoc rootAttrs ps) = [])
    (hm : ¬ maxQ (extract_y_coordinates (rendererDoc rootAttrs ps)) <
      Rat.divInt 1 50) :
    ∃ o₁ : String,
      adjust_svg_height_and_center (rendererDoc rootAttrs ps) = some o₁
      ∧ extract_y_coordinates o₁ = extract_y_coordinates (rendererDoc rootAttrs ps)
      ∧ maxQ (extract_y_coordinates o₁) =
          maxQ (extract_y_coordinates (rendererDoc rootAttrs ps))
      ∧ adjustNewHeight o₁ = adjustNewHeight (rendererDoc rootAttrs ps)
      ∧ adjustTranslate o₁ = adjustTranslate (rendererDoc rootAttrs ps) := by
  have hdoc0 : (rendererDoc rootAttrs ps).data =
      '<' :: 's' :: 'v' :: 'g' ::
        (rootAttrs ++ ('>' :: concatPaths ps (("</svg>").data))) := rfl
  have hdoc : (rendererDoc rootAttrs ps).data =
      ('<' :: 's' :: ('v' :: 'g' :: (rootAttrs ++ [('>' : Char)]))) ++
        concatPaths ps (("</svg>").data) := by
    rw [hdoc0]
    simp [List.append_assoc]
  have hA1 : ∀ c ∈ 'v' :: 'g' :: (rootAttrs ++ [('>' : Char)]), ¬ c = '<' := by
    intro c hc
    rcases List.mem_cons.mp hc with h | h
    · rw [h]; decide
    · rcases List.mem_cons.mp h with h | h
      · rw [h]; decide
      · rcases List.mem_append.mp h with h | h
        · exact (hra c h).1
        · rcases List.mem_cons.mp h with h | h
          · rw [h]; decide
          · exact absurd h (List.not_mem_nil c)
  have hsufpath : findIn pathPat (("</svg>").data) = none := by decide
  have hfuel_in : ps.length + 1 ≤ (rendererDoc rootAttrs ps).data.length + 1 := by
    have h1 := concatPaths_length ps (("</svg>").data)
    rw [hdoc0]
    simp only [List.length_cons, List.length_append] at h1 ⊢
    omega
  have hextract_in : extract_y_coordinates (rendererDoc rootAttrs ps) =
      pathsYs ps (("</svg>").data) := by
    rw [extract_eq_extractS]
    rw [hdoc]
    rw [extractS_block 's' ('v' :: 'g' :: (rootAttrs ++ [('>' : Char)])) _
      (by decide) (by decide) hA1]
    refine extractS_paths ps _ _ ?_ hpaths hsufpath
    rw [← hdoc]
    exact hfuel_in
  obtain ⟨p0, ps', rfl⟩ : ∃ p0 ps', ps = p0 :: ps' := by
    cases ps with
    | nil => exact absurd (by rw [hextract_in]; rfl) hy
    | cons a b => exact ⟨a, b, rfl⟩
  have hreader : readEvents ((rendererDoc rootAttrs (p0 :: ps')).data.length + 1)
      (rendererDoc rootAttrs (p0 :: ps')).data =
      XEvent.startE ('s' :: 'v' :: 'g' :: rootAttrs) ::
        ((p0 :: ps').map (fun p => XEvent.emptyE (innerOf p)) ++
          [XEvent.endE (("svg").data)]) := by
    rw [hdoc0]
    rw [readEvents_svg_start _ rootAttrs _
      (by intro hmem; exact (hra '>' hmem).2 rfl) hlast]
    rw [readEvents_paths (p0 :: ps') _ hpaths
      (by
        have h1 := concatPaths_length (p0 :: ps') (("</svg>").data)
        simp only [List.length_cons, List.length_append] at h1 ⊢
        omega)]
  have hloop := adjLoop_renderer
    (adjustNewHeight (rendererDoc rootAttrs (p0 :: ps')))
    (adjustTranslate (rendererDoc rootAttrs (p0 :: ps')))
    ('s' :: 'v' :: 'g' :: rootAttrs) p0 ps' hname
  have hadj : adjust_svg_height_and_center (rendererDoc rootAttrs (p0 :: ps')) =
      some (String.mk
        (svgStartOut ('s' :: 'v' :: 'g' :: rootAttrs)
            (adjustNewHeight (rendererDoc rootAttrs (p0 :: ps'))) ++
          (gOpen (adjustTranslate (rendererDoc rootAttrs (p0 :: ps'))) ++
            concatPaths (p0 :: ps') (("</g></svg>").data)))) := by
    simp only [adjust_svg_height_and_center, if_neg hy, if_neg hm, hreader, hloop,
      Option.map_some']
  have hattrs : ∀ kv ∈ rewriteSvgAttrs (parseAttrs ('s' :: 'v' :: 'g' :: rootAttrs))
      (adjustNewHeight (rendererDoc rootAttrs (p0 :: ps'))),
      (∀ c ∈ kv.1, ¬ c = '<') ∧ (∀ c ∈ kv.2, ¬ c = '<') := by
    apply rewriteSvgAttrs_ne_lt
    intro kv hkv
    have hsub := parseAttrsAux_subset _ _ kv hkv
    have hinner : ∀ c ∈ ('s' :: 'v' :: 'g' :: rootAttrs).drop
        (nameOf ('s' :: 'v' :: 'g' :: rootAttrs)).length, ¬ c = '<' := by
      intro c hc
      have hmem := List.drop_subset _ _ hc
      rcases List.mem_cons.mp hmem with h | h
      · rw [h]; decide
      · rcases List.mem_cons.mp h with h | h
        · rw [h]; decide
        · rcases List.mem_cons.mp h with h | h
          · rw [h]; decide
          · exact (hra c h).1
    exact ⟨fun c hc => hinner c (hsub.1 c hc), fun c hc => hinner c (hsub.2 c hc)⟩
  have hsvgout : svgStartOut ('s' :: 'v' :: 'g' :: rootAttrs)
      (adjustNewHeight (rendererDoc rootAttrs (p0 :: ps'))) =
      '<' :: 's' :: ('v' :: 'g' ::
        (serializeAttrs (rewriteSvgAttrs (parseAttrs ('s' :: 'v' :: 'g' :: rootAttrs))
            (adjustNewHeight (rendererDoc rootAttrs (p0 :: ps')))) ++ [('>' : Char)])) := by
    have hl : ("<svg").data = '<' :: 's' :: 'v' :: 'g' :: [] := rfl
    rw [svgStartOut, hl]
    simp [List.append_assoc]
  have hgopen : gOpen (adjustTranslate (rendererDoc rootAttrs (p0 :: ps'))) =
      '<' :: 'g' :: ((" transform=\"translate(0, ").data ++
        (formatQ (adjustTranslate (rendererDoc rootAttrs (p0 :: ps'))) ++
          ((")\">").data))) := by
    have hl : ("<g transform=\"translate(0, ").data =
        '<' :: 'g' :: (" transform=\"translate(0, ").data := rfl
    rw [gOpen, hl]
    simp [List.append_assoc]
  have hA2 : ∀ c ∈ 'v' :: 'g' ::
      (serializeAttrs (rewriteSvgAttrs (parseAttrs ('s' :: 'v' :: 'g' :: rootAttrs))
          (adjustNewHeight (rendererDoc rootAttrs (p0 :: ps')))) ++ [('>' : Char)]),
      ¬ c = '<' := by
    intro c hc
    rcases List.mem_cons.mp hc with h | h
    · rw [h]; decide
    · rcases List.mem_cons.mp h with h | h
      · rw [h]; decide
      · rcases List.mem_append.mp h with h | h
        · exact serializeAttrs_ne_lt _ hattrs c h
        · rcases List.mem_cons.mp h with h | h
          · rw [h]; decide
          · exact absurd h (List.not_mem_nil c)
  have hA3 : ∀ c ∈ (" transform=\"translate(0, ").data ++
      (formatQ (adjustTranslate (rendererDoc rootAttrs (p0 :: ps'))) ++
        ((")\">").data)), ¬ c = '<' := by
    intro c hc
    rcases List.mem_append.mp hc with h | h
    · have hlit : ∀ ch ∈ (" transform=\"translate(0, ").data, ¬ ch = '<' := by decide
      exact hlit c h
    · rcases List.mem_append.mp h with h | h
      · exact formatQ_ne_lt _ c h
      · have hlit : ∀ ch ∈ ((")\">").data), ¬ ch = '<' := by decide
        exact hlit c h
  have hsuf2 : findIn pathPat (("</g></svg>").data) = none := by decide
  have hextract_out : extract_y_coordinates (String.mk
      (svgStartOut ('s' :: 'v' :: 'g' :: rootAttrs)
          (adjustNewHeight (rendererDoc rootAttrs (p0 :: ps'))) ++
        (gOpen (adjustTranslate (rendererDoc rootAttrs (p0 :: ps'))) ++
          concatPaths (p0 :: ps') (("</g></svg>").data)))) =
      pathsYs (p0 :: ps') (("</g></svg>").data) := by
    rw [extract_mk, hsvgout, hgopen]
    rw [extractS_block 's' _ _ (by decide) (by decide) hA2]
    rw [extractS_block 'g' _ _ (by decide) (by decide) hA3]
    refine extractS_paths (p0 :: ps') _ _ ?_ hpaths hsuf2
    have h1 := concatPaths_length (p0 :: ps') (("</g></svg>").data)
    simp only [List.length_cons, List.length_append] at h1 ⊢
    omega
  have hcongr : pathsYs (p0 :: ps') (("</g></svg>").data) =
      pathsYs (p0 :: ps') (("</svg>").data) :=
    pathsYs_suffix_congr _ _ (by decide) (by decide) (by decide) (by decide)
      (by decide) (by decide) _
  have hxx : extract_y_coordinates (String.mk
      (svgStartOut ('s' :: 'v' :: 'g' :: rootAttrs)
          (adjustNewHeight (rendererDoc rootAttrs (p0 :: ps'))) ++
        (gOpen (adjustTranslate (rendererDoc rootAttrs (p0 :: ps'))) ++
          concatPaths (p0 :: ps') (("</g></svg>").data)))) =
      extract_y_coordinates (rendererDoc rootAttrs (p0 :: ps')) := by
    rw [hextract_out, hcongr, ← hextract_in]
  exact ⟨_, hadj, hxx, congrArg maxQ hxx, adjustNewHeight_congr _ _ hxx,
    adjustTranslate_congr _ _ hxx⟩

set_option maxRecDepth 40000 in
/-- Claim C8 amended: for EVERY document of the renderer output form — a root
`<svg>` start tag (attribute text free of angle brackets, not self-closing,
named `svg`) followed by self-closing `<path>` children, each carrying its `d`
attribute inside its own tag, with further attributes such as
`transform="matrix(...)"` allowed after the `d` — on which the function
performs an adjustment, the rewrite succeeds and preserves the extracted Y
list: the injected translate group is not read as a matrix and the path tags
survive verbatim, so the second pass recomputes the same maximum, the same
ceiling (the declared height value) and the same translation as the first.
On the concrete renderer document `c8stable` the declared height is
accordingly stable at `21` across a second application. -/
theorem claim_C8_stable_on_renderer_form :
    (∀ (rootAttrs : List Char) (ps : List PathTag),
      (∀ c ∈ rootAttrs, ¬ c = '<' ∧ ¬ c = '>') →
      ¬ ('s' :: 'v' :: 'g' :: rootAttrs).getLast? = some '/' →
      nameOf ('s' :: 'v' :: 'g' :: rootAttrs) = ("svg").data →
      (∀ p ∈ ps, pathOkP p) →
      ¬ extract_y_coordinates (rendererDoc rootAttrs ps) = [] →
      ¬ maxQ (extract_y_coordinates (rendererDoc rootAttrs ps)) <
        Rat.divInt 1 50 →
      ∃ o₁ : String,
        adjust_svg_height_and_center (rendererDoc rootAttrs ps) = some o₁
        ∧ extract_y_coordinates o₁ =
            extract_y_coordinates (rendererDoc rootAttrs ps)
        ∧ maxQ (extract_y_coordinates o₁) =
            maxQ (extract_y_coordinates (rendererDoc rootAttrs ps))
        ∧ adjustNewHeight o₁ = adjustNewHeight (rendererDoc rootAttrs ps)
        ∧ adjustTranslate o₁ = adjustTranslate (rendererDoc rootAttrs ps))
    ∧ heightVal ((adjust_svg_height_and_center c8stable).getD ("")) = some ("21")
    ∧ heightVal ((adjust_svg_height_and_center
        ((adjust_svg_height_and_center c8stable).getD (""))).getD ("")) =
        some ("21") :=
  ⟨renderer_extract_stable, by decide, by decide⟩

set_option maxRecDepth 40000 in
/-- Witness for claim C8 amended: the renderer-form hypotheses hold for the
decomposition of `c8stable` into its root attributes and its two path
children (the second carrying the matrix transform), so the amended theorem
applies to it: the adjustment succeeds and its output extracts the same Y
list, maximum, ceiling and translation as `c8stable` itself. -/
theorem claim_C8_witness :
    rendererDoc c8rootAttrs c8paths = c8stable
    ∧ (∃ o₁ : String,
        adjust_svg_height_and_center (rendererDoc c8rootAttrs c8paths) = some o₁
        ∧ extract_y_coordinates o₁ =
            extract_y_coordinates (rendererDoc c8rootAttrs c8paths)
        ∧ maxQ (extract_y_coordinates o₁) =
            maxQ (extract_y_coordinates (rendererDoc c8rootAttrs c8paths))
        ∧ adjustNewHeight o₁ = adjustNewHeight (rendererDoc c8rootAttrs c8paths)
        ∧ adjustTranslate o₁ =
            adjustTranslate (rendererDoc c8rootAttrs c8paths)) :=
  ⟨by decide, claim_C8_stable_on_renderer_form.1 c8rootAttrs c8paths (by decide)
    (by decide) (by decide) (by decide) (by decide) (by decide)⟩
